import Mathlib

/-! # Interrupt dispatcher: wait / signal / cancel and the PCI binding

A shallow embedding of

* `kernel/object/interrupt_dispatcher.cpp` (`InterruptDispatcher::Wait`, `Signal`, `Cancel`),
* `kernel/object/pci_interrupt_dispatcher.cpp` (`PciInterruptDispatcher`),
* the handle scan of `third_party/ulib/musl/src/env/__libc_start_main.c`,

the first two as a small-step machine.  The consumer thread that executes `Wait` is one component of the
state (`Thread`), producers (`Signal`, `Cancel`, `IrqThunk`) are atomic actions on the state.
Bit masks are `uint64_t` in the source; they are natural numbers here and only the bitwise
operations `|||` and `&&&` are applied to them, which never leave the 64-bit range.
-/

namespace Zircon

/-! ## Status codes -/

/-- The `zx_status_t` values named in the two dispatcher files; `other` stands for every
status that only the layers outside these files (bus driver, scheduler) can produce. -/
inductive zx_status_t where
  | ZX_OK
  | ZX_ERR_INTERNAL
  | ZX_ERR_NOT_SUPPORTED
  | ZX_ERR_NO_MEMORY
  | ZX_ERR_INVALID_ARGS
  | ZX_ERR_CANCELED
  | other (code : Int)
  deriving DecidableEq, Repr

open zx_status_t

/-- Return values of the PCI hardware callback (`pcie_irq_handler_retval_t`). -/
inductive pcie_irq_handler_retval_t where
  | PCIE_IRQRET_MASK
  | PCIE_IRQRET_MASK_AND_RESCHED
  deriving DecidableEq, Repr

/-! ## Data model -/

/-- Modelled from the spec: the macro `SIGNAL_MASK` of `object/interrupt_dispatcher.h`
(not part of the sources at hand): the pending mask has one bit per slot, bit `signal`
for slot `signal`.  Slot numbers and `ZX_INTERRUPT_CANCEL` are below 64 in the kernel, where
the mask fits `uint64_t`; the value of `ZX_INTERRUPT_CANCEL` is a parameter throughout. -/
def SIGNAL_MASK (signal : Nat) : Nat := 1 <<< signal

/-- Modelled from the spec: the auto-clearing event `event_t` of the kernel
(`event_init(&event_, false, EVENT_FLAG_AUTOUNSIGNAL)`).  `signaled` is the ready mark.
The wait queue of the event is the consumer thread itself, see `Thread.parked`. -/
structure event_t where
  signaled : Bool
  deriving DecidableEq, Repr

/-- Modelled from the spec: the slot record `InterruptDispatcher::Interrupt`, the object the
hardware callback receives as `ctx` (fields `timestamp`, `flags`, `vector`, `slot`; the
back pointer `dispatcher` is the enclosing state). -/
structure Interrupt where
  timestamp : Nat
  flags : Nat
  vector : Nat
  slot : Nat
  deriving DecidableEq, Repr

/-- State of the base class `InterruptDispatcher`. -/
structure InterruptDispatcher where
  signals_ : Nat
  event_ : event_t
  interrupts_ : List Interrupt
  deriving DecidableEq, Repr

/-- State of `PciInterruptDispatcher`: `device_` is the `fbl::RefPtr<PcieDevice>`, `none` for
`nullptr`, `some dev` for a reference to device `dev`. -/
structure PciInterruptDispatcher extends InterruptDispatcher where
  irq_id_ : Nat
  maskable_ : Bool
  device_ : Option Nat
  deriving DecidableEq, Repr

/-- A call made on a `PcieDevice` (the bus layer): `RegisterIrqHandler dev irq handler` with
`handler = false` for the `nullptr` handler, `MaskIrq dev irq`, `UnmaskIrq dev irq`. -/
inductive PcieCall where
  | RegisterIrqHandler (dev irq : Nat) (handler : Bool)
  | MaskIrq (dev irq : Nat)
  | UnmaskIrq (dev irq : Nat)
  deriving DecidableEq, Repr

/-- Where the consumer thread stands in `InterruptDispatcher::Wait`.

* `idle`: not inside `Wait`;
* `loopHead`: about to execute `signals_.exchange(0)` (line 15);
* `preWait`: the exchange returned zero, about to call `PreWait()` (line 25);
* `eventWait`: about to call `event_wait_deadline` (line 26);
* `parked`: blocked inside `event_wait_deadline`;
* `woken status`: `event_wait_deadline` returned `status` (line 27);
* `returned status out`: `Wait` returned `status`; `out` is the value written to
  `*out_signals`, `none` when it was not written;
* `fault`: a null `device_` was dereferenced. -/
inductive Thread where
  | idle
  | loopHead
  | preWait
  | eventWait
  | parked
  | woken (status : zx_status_t)
  | returned (status : zx_status_t) (out : Option Nat)
  | fault
  deriving DecidableEq, Repr

/-- The dispatcher together with its consumer thread, the calls made on the bus layer so far
and the hardware mask state of the vector `irq_id_` ("`MaskIrq(vector)`, `UnmaskIrq(vector)`:
hardware-level mask control"). -/
structure World where
  disp : PciInterruptDispatcher
  thread : Thread
  calls : List PcieCall
  masked : Bool
  deriving DecidableEq, Repr

/-! ## `InterruptDispatcher` -/

/-- The constructor `InterruptDispatcher::InterruptDispatcher()`: `signals_(0)` and
`event_init(&event_, false, EVENT_FLAG_AUTOUNSIGNAL)`. -/
def InterruptDispatcher.new : InterruptDispatcher :=
  { signals_ := 0, event_ := { signaled := false }, interrupts_ := [] }

/-- Modelled from the spec: `event_signal_etc(&event_, resched, ZX_OK)` on the auto-clearing
event: "wakes a parked waiter if present, else leaves a ready mark".  The result is the number
of threads made runnable.  `resched` only asks the scheduler for an immediate reschedule. -/
def event_signal_etc (_resched : Bool) (w : World) : Nat × World :=
  match w.thread with
  | .parked => (1, { w with thread := .woken ZX_OK })
  | _ => (0, { w with disp := { w.disp with event_ := { signaled := true } } })

/-- Modelled from the spec: the non-failing part of
`event_wait_deadline(&event_, ZX_TIME_INFINITE, true)`: with the ready mark set the call
returns `ZX_OK` at once and clears the mark, otherwise the thread parks. -/
def event_wait_deadline (w : World) : World :=
  if w.disp.event_.signaled then
    { w with disp := { w.disp with event_ := { signaled := false } }, thread := .woken ZX_OK }
  else
    { w with thread := .parked }

/-- Modelled from the spec: "any failure surfaced by the underlying blocking primitive":
the parked thread is released with `status` instead of being signalled. -/
def event_wait_fails (status : zx_status_t) (w : World) : World :=
  match w.thread with
  | .parked => { w with thread := .woken status }
  | _ => w

/-- `InterruptDispatcher::Signal(signals, resched)`: `signals_.fetch_or(signals)` followed by
`event_signal_etc(&event_, resched, ZX_OK)`, whose result is returned. -/
def Signal (signals : Nat) (resched : Bool) (w : World) : Nat × World :=
  let w1 : World := { w with disp := { w.disp with signals_ := w.disp.signals_ ||| signals } }
  event_signal_etc resched w1

/-- `InterruptDispatcher::Cancel()`. -/
def Cancel (ZX_INTERRUPT_CANCEL : Nat) (w : World) : Nat × World :=
  Signal (SIGNAL_MASK ZX_INTERRUPT_CANCEL) true w

/-! ## `PciInterruptDispatcher` hooks -/

/-- `PciInterruptDispatcher::PreWait()`: unmask the vector if maskable, then clear every slot
timestamp.  `none` when the null `device_` is dereferenced. -/
def PreWait (w : World) : Option World :=
  let cleared : List Interrupt := w.disp.interrupts_.map fun i => { i with timestamp := 0 }
  if w.disp.maskable_ then
    match w.disp.device_ with
    | none => none
    | some dev =>
      some { w with disp := { w.disp with interrupts_ := cleared },
                    calls := w.calls ++ [PcieCall.UnmaskIrq dev w.disp.irq_id_],
                    masked := false }
  else
    some { w with disp := { w.disp with interrupts_ := cleared } }

/-- `PciInterruptDispatcher::PostWait(signals)`: "nothing to do here". -/
def PostWait (_signals : Nat) (w : World) : World := w

/-! ## `InterruptDispatcher::Wait` as a step function of the consumer thread -/

/-- One step of the consumer thread inside `Wait`.  A parked thread does not move by itself
and a thread outside `Wait` has nothing to execute. -/
def waitStep (ZX_INTERRUPT_CANCEL : Nat) (w : World) : World :=
  match w.thread with
  | .loopHead =>
    let signals := w.disp.signals_
    let w1 : World := { w with disp := { w.disp with signals_ := 0 } }
    if signals ≠ 0 then
      if signals &&& SIGNAL_MASK ZX_INTERRUPT_CANCEL ≠ 0 then
        { w1 with thread := .returned ZX_ERR_CANCELED none }
      else
        { PostWait signals w1 with thread := .returned ZX_OK (some signals) }
    else
      { w1 with thread := .preWait }
  | .preWait =>
    match PreWait w with
    | none => { w with thread := .fault }
    | some w1 => { w1 with thread := .eventWait }
  | .eventWait => event_wait_deadline w
  | .woken status =>
    if status ≠ ZX_OK then { w with thread := .returned status none }
    else { w with thread := .loopHead }
  | .idle => w
  | .parked => w
  | .returned _ _ => w
  | .fault => w

/-- Run the consumer thread for `fuel` steps. -/
def runWait (ZX_INTERRUPT_CANCEL : Nat) : Nat → World → World
  | 0, w => w
  | fuel + 1, w => runWait ZX_INTERRUPT_CANCEL fuel (waitStep ZX_INTERRUPT_CANCEL w)

/-- The consumer thread enters `Wait`; only a thread that is outside `Wait` can do so. -/
def callWait (w : World) : World :=
  match w.thread with
  | .idle => { w with thread := .loopHead }
  | .returned _ _ => { w with thread := .loopHead }
  | _ => w

/-- A call of `InterruptDispatcher::Wait`, a new one when the thread is outside `Wait` and the
one in progress otherwise, run until it returns or parks.  Eight steps are enough for that
(`Wait_settles`): the thread passes the loop head at most twice before it returns or parks,
because the first `event_wait_deadline` consumes the ready mark. -/
def Wait (ZX_INTERRUPT_CANCEL : Nat) (w : World) : World :=
  runWait ZX_INTERRUPT_CANCEL 8 (callWait w)

/-- `PciInterruptDispatcher::WaitForInterrupt(out_slots)`: `canary_.Assert()` and
`return Wait(out_slots)`. -/
def WaitForInterrupt (ZX_INTERRUPT_CANCEL : Nat) (w : World) : World :=
  Wait ZX_INTERRUPT_CANCEL w

/-- `PciInterruptDispatcher::on_zero_handles()`: `MaskIrq` if maskable, then `Cancel()`.
`none` when the null `device_` is dereferenced. -/
def on_zero_handles (ZX_INTERRUPT_CANCEL : Nat) (w : World) : Option World :=
  if w.disp.maskable_ then
    match w.disp.device_ with
    | none => none
    | some dev =>
      some (Cancel ZX_INTERRUPT_CANCEL
        { w with calls := w.calls ++ [PcieCall.MaskIrq dev w.disp.irq_id_], masked := true }).2
  else
    some (Cancel ZX_INTERRUPT_CANCEL w).2

/-- `PciInterruptDispatcher::IrqThunk(dev, irq_id, ctx)`.  `ctx` points to a slot record of
the dispatcher and is given as its index in `interrupts_` (`none` when there is no such
record); `now` is the value of `current_time()`.  `Signal` is called with its default
`resched = false`. -/
def IrqThunk (now : Nat) (ctx : Nat) (w : World) : Option (pcie_irq_handler_retval_t × World) :=
  match w.disp.interrupts_[ctx]? with
  | none => none
  | some interrupt =>
    let interrupt1 : Interrupt :=
      if interrupt.timestamp = 0 then { interrupt with timestamp := now } else interrupt
    let w1 : World :=
      { w with disp := { w.disp with interrupts_ := w.disp.interrupts_.set ctx interrupt1 } }
    let r := Signal (SIGNAL_MASK interrupt1.slot) false w1
    if r.1 > 0 then some (.PCIE_IRQRET_MASK_AND_RESCHED, r.2)
    else some (.PCIE_IRQRET_MASK, r.2)

/-- Successive invocations of `IrqThunk` on the slot record `ctx`, at the times `ts`. -/
def irqAll (ctx : Nat) : List Nat → World → Option World
  | [], w => some w
  | t :: ts, w =>
    match IrqThunk t ctx w with
    | none => none
    | some r => irqAll ctx ts r.2

/-! ## `PciInterruptDispatcher::Create` and the destructor -/

/-- What `Create` and the destructor use from outside these files: the platform predicate
`is_valid_interrupt`, the rights constant, the status the bus layer answers to
`PcieDevice::RegisterIrqHandler(irq, handler, ctx)`, and the base-class method
`InterruptDispatcher::AddSlot(slot, vector, flags)`.

Modelled from the spec: `AddSlot` "inserts a SlotRecord" and registers the hardware handler,
so what it yields for a dispatcher is its status, the slot table it leaves and the calls it
made on the bus layer. -/
structure Kernel where
  is_valid_interrupt : Nat → Nat → Bool
  ZX_DEFAULT_PCI_INTERRUPT_RIGHTS : Nat
  RegisterIrqHandler : Nat → Nat → Bool → zx_status_t
  AddSlot : Nat → Nat → Nat → PciInterruptDispatcher →
    zx_status_t × List Interrupt × List PcieCall

/-- The constructor `PciInterruptDispatcher(irq_id, maskable)` on top of the constructor of
the base class; `device_` starts as the null reference. -/
def PciInterruptDispatcher.new (irq_id : Nat) (maskable : Bool) : PciInterruptDispatcher :=
  { InterruptDispatcher.new with irq_id_ := irq_id, maskable_ := maskable, device_ := none }

/-- The constant `PciInterruptDispatcher::IRQ_SLOT`. -/
def IRQ_SLOT : Nat := 0

/-- What `Create` does besides computing its result, in order: the allocation (`alloc ok`),
the call of `AddSlot`, calls on the bus layer, and the destruction of a dispatcher whose last
reference went away (`destroy d`, with the state `d` the destructor finds). -/
inductive Effect where
  | alloc (ok : Bool)
  | addSlot (slot vector flags : Nat)
  | call (c : PcieCall)
  | destroy (d : PciInterruptDispatcher)
  deriving DecidableEq, Repr

/-- Result of `Create`: the status, the values written to `*out_rights` and `*out_interrupt`
(`none` when not written) and the effects. -/
structure CreateResult where
  status : zx_status_t
  out_rights : Option Nat
  out_interrupt : Option PciInterruptDispatcher
  effects : List Effect
  deriving DecidableEq, Repr

/-- `PciInterruptDispatcher::~PciInterruptDispatcher()`: with a non-null `device_` the handler
is unregistered, `DEBUG_ASSERT(ret == ZX_OK)` is evaluated (third component) and the device
reference is released; with a null `device_` nothing happens. -/
def destroy (K : Kernel) (d : PciInterruptDispatcher) :
    PciInterruptDispatcher × List PcieCall × Bool :=
  match d.device_ with
  | some dev =>
    let ret := K.RegisterIrqHandler dev d.irq_id_ false
    ({ d with device_ := none }, [PcieCall.RegisterIrqHandler dev d.irq_id_ false],
      decide (ret = ZX_OK))
  | none => (d, [], true)

/-- `PciInterruptDispatcher::RegisterInterruptHandler(vector, data)`:
`device_->RegisterIrqHandler(vector, IrqThunk, data)`; `none` when `device_` is null. -/
def RegisterInterruptHandler (K : Kernel) (vector : Nat) (d : PciInterruptDispatcher) :
    Option (zx_status_t × List PcieCall) :=
  match d.device_ with
  | none => none
  | some dev =>
    some (K.RegisterIrqHandler dev vector true, [PcieCall.RegisterIrqHandler dev vector true])

/-- `PciInterruptDispatcher::Create(device, irq_id, maskable, out_rights, out_interrupt)`.
`device` is `none` for a null reference, `out_rights` and `out_interrupt` tell whether the
output pointers are non-null, `alloc_ok` is the outcome of `new (&ac)`. -/
def Create (K : Kernel) (alloc_ok : Bool) (device : Option Nat) (irq_id : Nat) (maskable : Bool)
    (out_rights out_interrupt : Bool) : CreateResult :=
  match device with
  | none =>
    { status := ZX_ERR_INVALID_ARGS, out_rights := none, out_interrupt := none, effects := [] }
  | some dev =>
    if !out_rights || !out_interrupt then
      { status := ZX_ERR_INVALID_ARGS, out_rights := none, out_interrupt := none, effects := [] }
    else if !K.is_valid_interrupt irq_id 0 then
      { status := ZX_ERR_INTERNAL, out_rights := none, out_interrupt := none, effects := [] }
    else if !alloc_ok then
      { status := ZX_ERR_NO_MEMORY, out_rights := none, out_interrupt := none,
        effects := [Effect.alloc false] }
    else
      let interrupt_dispatcher : PciInterruptDispatcher :=
        { PciInterruptDispatcher.new irq_id maskable with device_ := some dev }
      let r := K.AddSlot IRQ_SLOT irq_id 0 interrupt_dispatcher
      let result := r.1
      let added : PciInterruptDispatcher := { interrupt_dispatcher with interrupts_ := r.2.1 }
      let before : List Effect :=
        [Effect.alloc true, Effect.addSlot IRQ_SLOT irq_id 0] ++ r.2.2.map Effect.call
      if result ≠ ZX_OK then
        let detached : PciInterruptDispatcher := { added with device_ := none }
        { status := result, out_rights := none, out_interrupt := none,
          effects := before ++ [Effect.destroy detached]
            ++ (destroy K detached).2.1.map Effect.call }
      else
        let unmask : List Effect :=
          if maskable then [Effect.call (PcieCall.UnmaskIrq dev irq_id)] else []
        { status := ZX_OK, out_rights := some K.ZX_DEFAULT_PCI_INTERRUPT_RIGHTS,
          out_interrupt := some added, effects := before ++ unmask }

/-- Modelled from the spec: `InterruptDispatcher::AddSlot` ("inserts a SlotRecord; fails with
AlreadyBound if the irq_id is already present, fails with NoMemory/OutOfSlots if the table is
full"; it "registers the slot and hardware handler").  `bound` is the status for an irq id
that is already present, `capacity` the size of the table, `reg` the bus layer's answer to the
registration.  Used as a concrete instance of `Kernel.AddSlot`. -/
def AddSlot (bound : zx_status_t) (capacity : Nat) (reg : zx_status_t)
    (slot vector flags : Nat) (d : PciInterruptDispatcher) :
    zx_status_t × List Interrupt × List PcieCall :=
  if d.interrupts_.any (fun i => i.vector == vector) then
    (bound, d.interrupts_, [])
  else if capacity ≤ d.interrupts_.length then
    (ZX_ERR_NO_MEMORY, d.interrupts_, [])
  else
    match d.device_ with
    | none => (ZX_ERR_INTERNAL, d.interrupts_, [])
    | some dev =>
      if reg ≠ ZX_OK then
        (reg, d.interrupts_, [PcieCall.RegisterIrqHandler dev vector true])
      else
        (ZX_OK,
          d.interrupts_ ++ [{ timestamp := 0, flags := flags, vector := vector, slot := slot }],
          [PcieCall.RegisterIrqHandler dev vector true])

/-- A kernel whose bus layer answers `reg` to a registration, with 256 interrupt vectors and
no supported flags. -/
def sampleKernel (reg : zx_status_t) : Kernel :=
  { is_valid_interrupt := fun vector flags => decide (vector < 256) && decide (flags = 0),
    ZX_DEFAULT_PCI_INTERRUPT_RIGHTS := 15,
    RegisterIrqHandler := fun _ _ handler => if handler then reg else ZX_OK,
    AddSlot := AddSlot (.other (-24)) 62 reg }

/-- A bound on the number of steps after which a thread inside `Wait` has returned, parked or
faulted: each statement of the loop is one step, and a set ready mark costs one more turn of
the loop. -/
def stepsLeft (w : World) : Nat :=
  match w.thread with
  | .woken _ => if w.disp.event_.signaled then 8 else 4
  | .loopHead => if w.disp.event_.signaled then 7 else 3
  | .preWait => if w.disp.event_.signaled then 6 else 2
  | .eventWait => if w.disp.event_.signaled then 5 else 1
  | _ => 0

/-- The thread has left the loop of `Wait` for now: it returned, parked or faulted. -/
def Thread.settled : Thread → Bool
  | .returned _ _ => true
  | .parked => true
  | .fault => true
  | _ => false

/-- The states in which a `Cancel` can still reach the thread's current or next `Wait`: all
but the state after a fault and the state after a failure of the blocking primitive. -/
def Thread.cancellable : Thread → Bool
  | .fault => false
  | .woken st => decide (st = ZX_OK)
  | _ => true

/-- The three ways in which the step taken in state `w` makes `Wait` return `status`, with
`out` written to `*out_signals`: line 22 (the mask taken is non-zero and has no cancellation
bit: `ZX_OK` with that mask), line 18 (the mask taken has the cancellation bit:
`ZX_ERR_CANCELED`, nothing written), line 28 (`event_wait_deadline` returned a status other
than `ZX_OK`: that status, nothing written). -/
def ReturnsBy (ZX_INTERRUPT_CANCEL : Nat) (w : World) (status : zx_status_t)
    (out : Option Nat) : Prop :=
  (w.thread = .loopHead ∧ w.disp.signals_ ≠ 0
      ∧ w.disp.signals_ &&& SIGNAL_MASK ZX_INTERRUPT_CANCEL = 0
      ∧ status = ZX_OK ∧ out = some w.disp.signals_)
    ∨ (w.thread = .loopHead ∧ w.disp.signals_ &&& SIGNAL_MASK ZX_INTERRUPT_CANCEL ≠ 0
      ∧ status = ZX_ERR_CANCELED ∧ out = none)
    ∨ (w.thread = .woken status ∧ status ≠ ZX_OK ∧ out = none)

/-- Successive `Signal(m, resched)` calls, left to right. -/
def signalAll (resched : Bool) : List Nat → World → World
  | [], w => w
  | m :: ms, w => signalAll resched ms (Signal m resched w).2

/-- The union of a list of masks. -/
def maskUnion (ms : List Nat) : Nat := ms.foldr (· ||| ·) 0

/-- A dispatcher as `Create` hands it out, with one slot on vector 7 of device 1, and an idle
consumer thread. -/
def sampleWorld : World :=
  { disp := { signals_ := 0, event_ := { signaled := false },
              interrupts_ := [{ timestamp := 0, flags := 0, vector := 7, slot := 0 }],
              irq_id_ := 7, maskable_ := true, device_ := some 1 },
    thread := .idle, calls := [], masked := false }

/-! ## Further operations of `PciInterruptDispatcher` -/

/-- `PciInterruptDispatcher::Bind(slot, vector, options)`: after `canary_.Assert()`, which
holds on every constructed dispatcher, `return ZX_ERR_NOT_SUPPORTED`. -/
def Bind (_slot _vector _options : Nat) (w : World) : zx_status_t × World :=
  (ZX_ERR_NOT_SUPPORTED, w)

/-- `PciInterruptDispatcher::UnregisterInterruptHandler(vector)`:
`device_->RegisterIrqHandler(vector, nullptr, nullptr)`; `none` when `device_` is null. -/
def UnregisterInterruptHandler (vector : Nat) (d : PciInterruptDispatcher) :
    Option (List PcieCall) :=
  match d.device_ with
  | none => none
  | some dev => some [PcieCall.RegisterIrqHandler dev vector false]

/-- The step of `InterruptDispatcher::Wait` with the virtual `PostWait` hook left open:
`waitStep` with `post` in the place of `PciInterruptDispatcher::PostWait`.  A result that does
not depend on `post` is a step in which the hook is not invoked. -/
def waitStepWith (post : Nat → World → World) (ZX_INTERRUPT_CANCEL : Nat) (w : World) : World :=
  match w.thread with
  | .loopHead =>
    let signals := w.disp.signals_
    let w1 : World := { w with disp := { w.disp with signals_ := 0 } }
    if signals ≠ 0 then
      if signals &&& SIGNAL_MASK ZX_INTERRUPT_CANCEL ≠ 0 then
        { w1 with thread := .returned ZX_ERR_CANCELED none }
      else
        { post signals w1 with thread := .returned ZX_OK (some signals) }
    else
      { w1 with thread := .preWait }
  | .preWait =>
    match PreWait w with
    | none => { w with thread := .fault }
    | some w1 => { w1 with thread := .eventWait }
  | .eventWait => event_wait_deadline w
  | .woken status =>
    if status ≠ ZX_OK then { w with thread := .returned status none }
    else { w with thread := .loopHead }
  | .idle => w
  | .parked => w
  | .returned _ _ => w
  | .fault => w

/-! ## The life of a dispatcher -/

/-- The calls on the bus layer among the effects of `Create`, in order. -/
def Effect.calls : List Effect → List PcieCall
  | [] => []
  | .call c :: es => c :: Effect.calls es
  | _ :: es => Effect.calls es

/-- The state in which a successful `Create(device, irq_id, maskable, ..)` leaves the
dispatcher it hands out: no consumer thread is in `Wait` yet, the calls made so far are those
of `Create`, and the vector is unmasked if the dispatcher is maskable (`Create` has called
`UnmaskIrq`), in the hardware state `masked0` otherwise.  `none` when `Create` fails. -/
def created (K : Kernel) (dev irq_id : Nat) (maskable masked0 : Bool) : Option World :=
  match (Create K true (some dev) irq_id maskable true true).out_interrupt with
  | none => none
  | some d =>
    some { disp := d, thread := .idle,
           calls := Effect.calls (Create K true (some dev) irq_id maskable true true).effects,
           masked := !maskable && masked0 }

/-- Modelled from the spec: a hardware firing of the vector.  It is possible only while the
vector is unmasked; the bus layer runs the callback `IrqThunk` on the slot record `ctx`, and
since both return values of the callback ask for it, it masks the vector of a maskable
interrupt before it returns. -/
def fire (now ctx : Nat) (w : World) : Option World :=
  if w.disp.maskable_ && w.masked then none
  else
    match IrqThunk now ctx w with
    | none => none
    | some r => some { r.2 with masked := w.disp.maskable_ || r.2.masked }

/-- What can happen to a live dispatcher: the consumer thread calls `Wait` or takes its next
step in it, somebody calls `Signal` or `Cancel`, the blocking primitive fails, the hardware
fires, `Bind` is called, or the last handle goes away (`on_zero_handles`). -/
inductive Action where
  | call
  | wait
  | signal (m : Nat) (resched : Bool)
  | cancel
  | fail (status : zx_status_t)
  | fire (now ctx : Nat)
  | bind (slot vector options : Nat)
  | zeroHandles
  deriving DecidableEq, Repr

/-- One action on the state; `none` when the action is not possible in the state or when it
dereferences a null `device_`. -/
def step (ZX_INTERRUPT_CANCEL : Nat) : Action → World → Option World
  | .call, w => some (callWait w)
  | .wait, w => some (waitStep ZX_INTERRUPT_CANCEL w)
  | .signal m resched, w => some (Signal m resched w).2
  | .cancel, w => some (Cancel ZX_INTERRUPT_CANCEL w).2
  | .fail status, w => some (event_wait_fails status w)
  | .fire now ctx, w => fire now ctx w
  | .bind slot vector options, w => some (Bind slot vector options w).2
  | .zeroHandles, w => on_zero_handles ZX_INTERRUPT_CANCEL w

/-- A sequence of actions, left to right. -/
def exec (ZX_INTERRUPT_CANCEL : Nat) : List Action → World → Option World
  | [], w => some w
  | a :: as, w =>
    match step ZX_INTERRUPT_CANCEL a w with
    | none => none
    | some w1 => exec ZX_INTERRUPT_CANCEL as w1

/-- Modelled from the spec: the handler table of the bus layer, read off the calls made on it:
"`RegisterIrqHandler(vector, callback, context) → status` installs a callback", "pass a null
callback to remove"; a call that the bus layer answers with a status other than `ZX_OK`
changes nothing.  The result tells whether a handler is installed for `irq` on `dev`. -/
def handlerRegistered (K : Kernel) (dev irq : Nat) (calls : List PcieCall) : Bool :=
  calls.foldl
    (fun reg call =>
      match call with
      | .RegisterIrqHandler d i handler =>
        if d = dev ∧ i = irq ∧ K.RegisterIrqHandler d i handler = ZX_OK then handler else reg
      | _ => reg)
    false

/-- The states the destructor `~PciInterruptDispatcher()` passes through, in order: with a
non-null `device_`, the state after the call of `RegisterIrqHandler(irq_id_, nullptr, nullptr)`
(line 21) and, if `DEBUG_ASSERT(ret == ZX_OK)` holds, the state after `device_ = nullptr`
(line 25); a failed assertion stops the kernel.  With a null `device_` there is no state to
pass through. -/
def destroyTrace (K : Kernel) (w : World) : List World :=
  match w.disp.device_ with
  | some dev =>
    let w1 : World :=
      { w with calls := w.calls ++ [PcieCall.RegisterIrqHandler dev w.disp.irq_id_ false] }
    if K.RegisterIrqHandler dev w.disp.irq_id_ false = ZX_OK then
      [w1, { w1 with disp := { w1.disp with device_ := none } }]
    else
      [w1]
  | none => []

/-- Some bit other than the cancellation bit is pending: an event of a slot is unconsumed. -/
def slotPending (ZX_INTERRUPT_CANCEL : Nat) (w : World) : Prop :=
  w.disp.signals_ ||| SIGNAL_MASK ZX_INTERRUPT_CANCEL ≠ SIGNAL_MASK ZX_INTERRUPT_CANCEL

/-- The action raises no slot bit by software: every action but a `Signal` whose mask has a bit
other than the cancellation bit. -/
def Action.raisesNoSlot (ZX_INTERRUPT_CANCEL : Nat) : Action → Bool
  | .signal m _ => decide (m ||| SIGNAL_MASK ZX_INTERRUPT_CANCEL = SIGNAL_MASK ZX_INTERRUPT_CANCEL)
  | _ => true

/-- The consumer thread has passed `PreWait` and is on its way to the next exchange without
blocking: at `event_wait_deadline` with the ready mark set, just woken with `ZX_OK`, or at the
loop head. -/
def rechecking (w : World) : Prop :=
  (w.thread = .eventWait ∧ w.disp.event_.signaled = true) ∨ w.thread = .woken ZX_OK
    ∨ w.thread = .loopHead

/-- The state `created (sampleKernel ZX_OK) 1 7 true false`: the dispatcher `Create` hands
out for vector 7 of device 1, after the registration and the unmasking of the vector. -/
def sampleCreated : World :=
  { sampleWorld with
    calls := [PcieCall.RegisterIrqHandler 1 7 true, PcieCall.UnmaskIrq 1 7] }

/-! ## Process startup: the handle scan of `__libc_start_main` -/

/-- What the handle scan uses from `magenta/processargs.h` and `magenta/types.h`, which are
not part of the sources at hand: the macro `MX_HND_INFO_TYPE`, the four handle types named in
the `switch`, and `MX_HANDLE_INVALID`. -/
structure HandleTypes where
  MX_HND_INFO_TYPE : Nat → Nat
  MX_HND_TYPE_PROC_SELF : Nat
  MX_HND_TYPE_JOB : Nat
  MX_HND_TYPE_VMAR_ROOT : Nat
  MX_HND_TYPE_THREAD_SELF : Nat
  MX_HANDLE_INVALID : Nat

/-- The four handle types are the case labels of one `switch`, hence different values. -/
def HandleTypes.distinct (P : HandleTypes) : Prop :=
  P.MX_HND_TYPE_PROC_SELF ≠ P.MX_HND_TYPE_JOB
    ∧ P.MX_HND_TYPE_PROC_SELF ≠ P.MX_HND_TYPE_VMAR_ROOT
    ∧ P.MX_HND_TYPE_PROC_SELF ≠ P.MX_HND_TYPE_THREAD_SELF
    ∧ P.MX_HND_TYPE_JOB ≠ P.MX_HND_TYPE_VMAR_ROOT
    ∧ P.MX_HND_TYPE_JOB ≠ P.MX_HND_TYPE_THREAD_SELF
    ∧ P.MX_HND_TYPE_VMAR_ROOT ≠ P.MX_HND_TYPE_THREAD_SELF

/-- The variables the handle scan reads and writes: the arrays `handles` and `p.handle_info`,
the globals `__magenta_process_self`, `__magenta_job_default`, `__magenta_vmar_root_self`, the
local `main_thread_handle`, and the handles passed to `_mx_handle_close` so far. -/
structure StartState where
  handles : List Nat
  handle_info : List Nat
  __magenta_process_self : Nat
  __magenta_job_default : Nat
  __magenta_vmar_root_self : Nat
  main_thread_handle : Nat
  closed : List Nat
  deriving DecidableEq, Repr

/-- The body of the loop at index `i` (lines 97 to 136): the `switch` on
`MX_HND_INFO_TYPE(p.handle_info[i])`.  `none` when `i` is outside one of the arrays. -/
def scanBody (P : HandleTypes) (i : Nat) (s : StartState) : Option StartState :=
  match s.handle_info[i]?, s.handles[i]? with
  | some info, some h =>
    if P.MX_HND_INFO_TYPE info = P.MX_HND_TYPE_PROC_SELF then
      some { s with
        closed := if s.__magenta_process_self ≠ P.MX_HANDLE_INVALID
          then s.closed ++ [s.__magenta_process_self] else s.closed,
        __magenta_process_self := h,
        handles := s.handles.set i P.MX_HANDLE_INVALID,
        handle_info := s.handle_info.set i 0 }
    else if P.MX_HND_INFO_TYPE info = P.MX_HND_TYPE_JOB then
      some { s with
        closed := if s.__magenta_job_default ≠ P.MX_HANDLE_INVALID
          then s.closed ++ [s.__magenta_job_default] else s.closed,
        __magenta_job_default := h,
        handles := s.handles.set i P.MX_HANDLE_INVALID,
        handle_info := s.handle_info.set i 0 }
    else if P.MX_HND_INFO_TYPE info = P.MX_HND_TYPE_VMAR_ROOT then
      some { s with
        closed := if s.__magenta_vmar_root_self ≠ P.MX_HANDLE_INVALID
          then s.closed ++ [s.__magenta_vmar_root_self] else s.closed,
        __magenta_vmar_root_self := h,
        handles := s.handles.set i P.MX_HANDLE_INVALID,
        handle_info := s.handle_info.set i 0 }
    else if P.MX_HND_INFO_TYPE info = P.MX_HND_TYPE_THREAD_SELF then
      some { s with
        main_thread_handle := h,
        handles := s.handles.set i P.MX_HANDLE_INVALID,
        handle_info := s.handle_info.set i 0 }
    else
      some s
  | _, _ => none

/-- The loop `for (uint32_t i = 0; i < n; ++i)` over `scanBody`: the indices below `n`, in
ascending order. -/
def scanUpTo (P : HandleTypes) : Nat → StartState → Option StartState
  | 0, s => some s
  | n + 1, s =>
    match scanUpTo P n s with
    | none => none
    | some s1 => scanBody P n s1

/-- The handle scan of `__libc_start_main` (lines 95 to 137): `main_thread_handle` starts as
`MX_HANDLE_INVALID`, then the loop runs over the indices below `nhandles`. -/
def handleScan (P : HandleTypes) (nhandles : Nat) (s : StartState) : Option StartState :=
  scanUpTo P nhandles { s with main_thread_handle := P.MX_HANDLE_INVALID }

/-- The type of entry `j` of a `handle_info` array. -/
def typeAt (P : HandleTypes) (handle_info : List Nat) (j : Nat) : Option Nat :=
  (handle_info[j]?).map P.MX_HND_INFO_TYPE

/-- The type is one of the four the scan takes out of the arrays. -/
def HandleTypes.taken (P : HandleTypes) (ty : Nat) : Prop :=
  ty = P.MX_HND_TYPE_PROC_SELF ∨ ty = P.MX_HND_TYPE_JOB ∨ ty = P.MX_HND_TYPE_VMAR_ROOT
    ∨ ty = P.MX_HND_TYPE_THREAD_SELF

/-- The value `g` is the last handle of type `ty` among the first `n` entries of the arrays,
or the previous value `prev` when none of these entries has the type `ty`. -/
def IsLastOfType (P : HandleTypes) (ty : Nat) (handle_info handles : List Nat) (n : Nat)
    (prev g : Nat) : Prop :=
  (∃ j, j < n ∧ typeAt P handle_info j = some ty ∧ handles[j]? = some g
      ∧ ∀ k, j < k → k < n → typeAt P handle_info k ≠ some ty)
    ∨ ((∀ j, j < n → typeAt P handle_info j ≠ some ty) ∧ g = prev)

/-- Handle types as in the kernel headers of the time: the type is the low half of the info
word; process 1, thread 2, job 3, root VMAR 4; the invalid handle is 0. -/
def sampleTypes : HandleTypes :=
  { MX_HND_INFO_TYPE := fun n => n % 65536,
    MX_HND_TYPE_PROC_SELF := 1,
    MX_HND_TYPE_JOB := 3,
    MX_HND_TYPE_VMAR_ROOT := 4,
    MX_HND_TYPE_THREAD_SELF := 2,
    MX_HANDLE_INVALID := 0 }

/-- A start state with five handles: a process handle, a file descriptor (type 48), two
thread handles and a job handle. -/
def sampleStart : StartState :=
  { handles := [11, 12, 13, 14, 15],
    handle_info := [1, 65584, 2, 2, 3],
    __magenta_process_self := 7,
    __magenta_job_default := 0,
    __magenta_vmar_root_self := 9,
    main_thread_handle := 99,
    closed := [] }

/-- The state `sampleCreated` after a hardware firing at time 5: the bit of slot 0 is pending,
the ready mark is set and the vector is masked. -/
def sampleFired : World :=
  { disp := { signals_ := 1, event_ := { signaled := true },
              interrupts_ := [{ timestamp := 5, flags := 0, vector := 7, slot := 0 }],
              irq_id_ := 7, maskable_ := true, device_ := some 1 },
    thread := .idle,
    calls := [PcieCall.RegisterIrqHandler 1 7 true, PcieCall.UnmaskIrq 1 7],
    masked := true }

/-! ## Properties -/

/-! ### Bit masks -/

theorem land_SIGNAL_MASK_eq_zero_iff (x c : Nat) :
    x &&& SIGNAL_MASK c = 0 ↔ x.testBit c = false := by
  unfold SIGNAL_MASK
  rw [Nat.one_shiftLeft]
  constructor
  · intro h
    have h1 : (x &&& 2 ^ c).testBit c = false := by rw [h]; exact Nat.zero_testBit c
    rw [Nat.testBit_and, Nat.testBit_two_pow_self, Bool.and_true] at h1
    exact h1
  · intro h
    apply Nat.eq_of_testBit_eq
    intro i
    rw [Nat.testBit_and, Nat.zero_testBit, Nat.testBit_two_pow]
    by_cases hci : c = i
    · subst hci; simp [h]
    · simp [hci]

theorem SIGNAL_MASK_ne_zero (c : Nat) : SIGNAL_MASK c ≠ 0 := by
  unfold SIGNAL_MASK
  rw [Nat.one_shiftLeft]
  exact Nat.pos_iff_ne_zero.mp (Nat.two_pow_pos c)

theorem testBit_SIGNAL_MASK (c i : Nat) : (SIGNAL_MASK c).testBit i = decide (c = i) := by
  unfold SIGNAL_MASK
  rw [Nat.one_shiftLeft]
  exact Nat.testBit_two_pow

theorem lor_eq_zero_iff (x y : Nat) : x ||| y = 0 ↔ x = 0 ∧ y = 0 := by
  constructor
  · intro h
    have hb : ∀ i, (x.testBit i || y.testBit i) = false := by
      intro i
      rw [← Nat.testBit_or, h]
      exact Nat.zero_testBit i
    constructor
    · apply Nat.eq_of_testBit_eq
      intro i
      have := hb i
      rw [Bool.or_eq_false_iff] at this
      rw [this.1, Nat.zero_testBit]
    · apply Nat.eq_of_testBit_eq
      intro i
      have := hb i
      rw [Bool.or_eq_false_iff] at this
      rw [this.2, Nat.zero_testBit]
  · rintro ⟨rfl, rfl⟩
    rfl

theorem maskUnion_cons (m : Nat) (ms : List Nat) : maskUnion (m :: ms) = m ||| maskUnion ms :=
  rfl

theorem testBit_maskUnion (ms : List Nat) (i : Nat) :
    (maskUnion ms).testBit i = true ↔ ∃ m ∈ ms, m.testBit i = true := by
  induction ms with
  | nil => simp [maskUnion]
  | cons m ms ih =>
    rw [maskUnion_cons, Nat.testBit_or, Bool.or_eq_true, ih]
    simp

theorem maskUnion_land_SIGNAL_MASK (ms : List Nat) (c : Nat)
    (h : ∀ m ∈ ms, m &&& SIGNAL_MASK c = 0) : maskUnion ms &&& SIGNAL_MASK c = 0 := by
  rw [land_SIGNAL_MASK_eq_zero_iff]
  rw [Bool.eq_false_iff]
  intro hc
  obtain ⟨m, hm, hbit⟩ := (testBit_maskUnion ms c).mp hc
  have := (land_SIGNAL_MASK_eq_zero_iff m c).mp (h m hm)
  rw [this] at hbit
  exact Bool.false_ne_true hbit

/-! ### Signal -/

theorem Signal_signals_ (m : Nat) (r : Bool) (w : World) :
    (Signal m r w).2.disp.signals_ = w.disp.signals_ ||| m := by
  unfold Signal event_signal_etc
  cases h : w.thread <;> simp [h]

theorem Signal_calls (m : Nat) (r : Bool) (w : World) : (Signal m r w).2.calls = w.calls := by
  unfold Signal event_signal_etc
  cases h : w.thread <;> simp [h]

theorem Signal_thread_of_ne_parked (m : Nat) (r : Bool) (w : World) (h : w.thread ≠ .parked) :
    (Signal m r w).2.thread = w.thread := by
  unfold Signal event_signal_etc
  cases h1 : w.thread <;> simp_all

theorem Signal_signaled_of_ne_parked (m : Nat) (r : Bool) (w : World) (h : w.thread ≠ .parked) :
    (Signal m r w).2.disp.event_.signaled = true := by
  unfold Signal event_signal_etc
  cases h1 : w.thread <;> simp_all

theorem Signal_thread_of_parked (m : Nat) (r : Bool) (w : World) (h : w.thread = .parked) :
    (Signal m r w).2.thread = .woken ZX_OK := by
  unfold Signal event_signal_etc
  simp [h]

theorem signalAll_signals_ (r : Bool) (ms : List Nat) (w : World) :
    (signalAll r ms w).disp.signals_ = w.disp.signals_ ||| maskUnion ms := by
  induction ms generalizing w with
  | nil => simp [signalAll, maskUnion]
  | cons m ms ih =>
    rw [signalAll, ih, Signal_signals_, maskUnion_cons, Nat.or_assoc]

theorem signalAll_thread_of_ne_parked (r : Bool) (ms : List Nat) (w : World)
    (h : w.thread ≠ .parked) : (signalAll r ms w).thread = w.thread := by
  induction ms generalizing w with
  | nil => rfl
  | cons m ms ih =>
    have h1 := Signal_thread_of_ne_parked m r w h
    rw [signalAll, ih _ (by rw [h1]; exact h), h1]

/-! ### The consumer thread -/

theorem runWait_of_settled (c n : Nat) (w : World) (h : w.thread.settled = true) :
    runWait c n w = w := by
  induction n with
  | zero => rfl
  | succ n ih =>
    have hs : waitStep c w = w := by
      unfold waitStep
      cases ht : w.thread <;> simp_all [Thread.settled]
    rw [runWait, hs, ih]

theorem runWait_add (c a b : Nat) (w : World) :
    runWait c (a + b) w = runWait c b (runWait c a w) := by
  induction a generalizing w with
  | zero => simp [runWait]
  | succ a ih => rw [Nat.succ_add, runWait, runWait, ih]

theorem callWait_of_outside (w : World)
    (h : w.thread = .idle ∨ ∃ st o, w.thread = .returned st o) :
    callWait w = { w with thread := .loopHead } := by
  unfold callWait
  rcases h with h | ⟨st, o, h⟩ <;> simp [h]

theorem waitStep_loopHead_ok (c : Nat) (w : World) (ht : w.thread = .loopHead)
    (h0 : w.disp.signals_ ≠ 0) (hc : w.disp.signals_ &&& SIGNAL_MASK c = 0) :
    waitStep c w = { w with disp := { w.disp with signals_ := 0 },
                            thread := .returned ZX_OK (some w.disp.signals_) } := by
  unfold waitStep
  simp [ht, h0, hc, PostWait]

theorem waitStep_loopHead_canceled (c : Nat) (w : World) (ht : w.thread = .loopHead)
    (hc : w.disp.signals_ &&& SIGNAL_MASK c ≠ 0) :
    waitStep c w = { w with disp := { w.disp with signals_ := 0 },
                            thread := .returned ZX_ERR_CANCELED none } := by
  have h0 : w.disp.signals_ ≠ 0 := by
    intro h
    rw [h] at hc
    exact hc (Nat.zero_and _)
  unfold waitStep
  simp [ht, h0, hc]

theorem runWait_loopHead_ok (c n : Nat) (w : World) (ht : w.thread = .loopHead)
    (h0 : w.disp.signals_ ≠ 0) (hc : w.disp.signals_ &&& SIGNAL_MASK c = 0) :
    runWait c (n + 1) w = { w with disp := { w.disp with signals_ := 0 },
                                   thread := .returned ZX_OK (some w.disp.signals_) } := by
  rw [runWait, waitStep_loopHead_ok c w ht h0 hc, runWait_of_settled]
  rfl

theorem runWait_loopHead_canceled (c n : Nat) (w : World) (ht : w.thread = .loopHead)
    (hc : w.disp.signals_ &&& SIGNAL_MASK c ≠ 0) :
    runWait c (n + 1) w = { w with disp := { w.disp with signals_ := 0 },
                                   thread := .returned ZX_ERR_CANCELED none } := by
  rw [runWait, waitStep_loopHead_canceled c w ht hc, runWait_of_settled]
  rfl

theorem stepsLeft_le (w : World) : stepsLeft w ≤ 8 := by
  unfold stepsLeft
  cases w.thread <;> simp <;> split <;> decide

theorem stepsLeft_waitStep (c : Nat) (w : World) :
    stepsLeft (waitStep c w) ≤ stepsLeft w - 1 := by
  obtain ⟨⟨⟨s, ⟨sg⟩, ints⟩, irq, mk, dev⟩, th, calls, msk⟩ := w
  cases th with
  | loopHead =>
    by_cases h0 : s = 0
    · cases sg <;> simp [waitStep, stepsLeft, h0]
    · by_cases hc : s &&& SIGNAL_MASK c = 0 <;>
        simp [waitStep, stepsLeft, h0, hc, PostWait]
  | preWait =>
    cases mk <;> cases dev <;> cases sg <;> simp [waitStep, stepsLeft, PreWait]
  | eventWait => cases sg <;> simp [waitStep, stepsLeft, event_wait_deadline]
  | woken st =>
    by_cases hs : st = ZX_OK <;> cases sg <;> simp [waitStep, stepsLeft, hs]
  | idle => simp [waitStep, stepsLeft]
  | parked => simp [waitStep, stepsLeft]
  | returned st o => simp [waitStep, stepsLeft]
  | fault => simp [waitStep, stepsLeft]

theorem stepsLeft_runWait (c n : Nat) (w : World) :
    stepsLeft (runWait c n w) ≤ stepsLeft w - n := by
  induction n generalizing w with
  | zero => exact Nat.le_refl _
  | succ n ih =>
    rw [runWait]
    have h1 := ih (waitStep c w)
    have h2 := stepsLeft_waitStep c w
    omega

theorem waitStep_thread_ne_idle (c : Nat) (w : World) (h : w.thread ≠ .idle) :
    (waitStep c w).thread ≠ .idle := by
  unfold waitStep
  cases ht : w.thread with
  | idle => exact absurd ht h
  | loopHead => simp only; split <;> [split; skip] <;> simp
  | preWait => simp only; split <;> simp
  | eventWait => simp only [event_wait_deadline]; split <;> simp
  | woken st => simp only; split <;> simp
  | parked => simp [ht]
  | returned st o => simp [ht]
  | fault => simp [ht]

theorem runWait_thread_ne_idle (c n : Nat) (w : World) (h : w.thread ≠ .idle) :
    (runWait c n w).thread ≠ .idle := by
  induction n generalizing w with
  | zero => exact h
  | succ n ih =>
    rw [runWait]
    exact ih _ (waitStep_thread_ne_idle c w h)

theorem settled_of_stepsLeft (w : World) (h : w.thread ≠ .idle) (h0 : stepsLeft w = 0) :
    w.thread.settled = true := by
  unfold stepsLeft at h0
  cases ht : w.thread with
  | idle => exact absurd ht h
  | loopHead => rw [ht] at h0; simp only at h0; split at h0 <;> cases h0
  | preWait => rw [ht] at h0; simp only at h0; split at h0 <;> cases h0
  | eventWait => rw [ht] at h0; simp only at h0; split at h0 <;> cases h0
  | woken st => rw [ht] at h0; simp only at h0; split at h0 <;> cases h0
  | parked => rfl
  | returned st o => rfl
  | fault => rfl

/-- Eight steps settle every call of `Wait`: afterwards the thread has returned, is parked or
has faulted, and further steps change nothing. -/
theorem Wait_settles (c : Nat) (w : World) :
    (Wait c w).thread.settled = true ∧ ∀ n, runWait c n (Wait c w) = Wait c w := by
  have hcall : (callWait w).thread ≠ .idle := by
    unfold callWait
    cases ht : w.thread <;> simp [ht]
  have h : (Wait c w).thread.settled = true := by
    apply settled_of_stepsLeft _ (runWait_thread_ne_idle c 8 _ hcall)
    have h1 := stepsLeft_runWait c 8 (callWait w)
    have h2 := stepsLeft_le (callWait w)
    omega
  exact ⟨h, fun n => runWait_of_settled c n _ h⟩

/-! ### Signals raised with no thread waiting -/

/-- Claim C1.  Let the masks `ms` contain slot bits only (cancellation bit clear) with a non-zero
union, and let them be raised by successive `Signal` calls on a dispatcher with an empty
pending mask whose consumer thread is outside `Wait`.  Then the next `Wait` returns at its
first step, the exchange, hence without blocking; it returns `ZX_OK` and writes the union of
the masks to `out_signals`: a bit is set in it exactly if one of the masks has it; the
`PostWait` hook leaves everything as it is, and the pending mask is zero afterwards. -/
theorem Wait_returns_raised_signals (c : Nat) (resched : Bool) (ms : List Nat) (w : World)
    (hthread : w.thread = .idle ∨ ∃ st o, w.thread = .returned st o)
    (hpending : w.disp.signals_ = 0)
    (hslot : ∀ m ∈ ms, m &&& SIGNAL_MASK c = 0)
    (hne : maskUnion ms ≠ 0) :
    waitStep c (callWait (signalAll resched ms w)) = Wait c (signalAll resched ms w)
      ∧ (Wait c (signalAll resched ms w)).thread = .returned ZX_OK (some (maskUnion ms))
      ∧ (∀ i, (maskUnion ms).testBit i = true ↔ ∃ m ∈ ms, m.testBit i = true)
      ∧ (∀ v, PostWait (maskUnion ms) v = v)
      ∧ (Wait c (signalAll resched ms w)).disp.signals_ = 0 := by
  have hnp : w.thread ≠ .parked := by
    rcases hthread with h | ⟨st, o, h⟩ <;> rw [h] <;> simp
  have hth : (signalAll resched ms w).thread = w.thread :=
    signalAll_thread_of_ne_parked resched ms w hnp
  have hsig : (signalAll resched ms w).disp.signals_ = maskUnion ms := by
    rw [signalAll_signals_, hpending, Nat.zero_or]
  have hcall := callWait_of_outside (signalAll resched ms w) (by rw [hth]; exact hthread)
  have hc := maskUnion_land_SIGNAL_MASK ms c hslot
  have hstep := waitStep_loopHead_ok c (callWait (signalAll resched ms w))
    (by rw [hcall]) (by rw [hcall]; simpa [hsig] using hne) (by rw [hcall]; simpa [hsig] using hc)
  have hrun : Wait c (signalAll resched ms w) = waitStep c (callWait (signalAll resched ms w)) := by
    unfold Wait
    rw [runWait, runWait_of_settled]
    rw [hstep]
    rfl
  refine ⟨hrun.symm, ?_, testBit_maskUnion ms, fun _ => rfl, ?_⟩
  · rw [hrun, hstep, hcall]
    simp [hsig]
  · rw [hrun, hstep]

theorem Wait_returns_raised_signals_witness :
    (Wait 63 (signalAll false [1, 4] sampleWorld)).thread = .returned ZX_OK (some 5)
      ∧ (Wait 63 (signalAll false [1, 4] sampleWorld)).disp.signals_ = 0 :=
  have h := Wait_returns_raised_signals 63 false [1, 4] sampleWorld (Or.inl rfl) rfl
    (by decide) (by decide)
  ⟨h.2.1, h.2.2.2.2⟩

/-! ### Cancel -/

theorem lor_SIGNAL_MASK_land (s c : Nat) : (s ||| SIGNAL_MASK c) &&& SIGNAL_MASK c ≠ 0 := by
  intro h
  rw [land_SIGNAL_MASK_eq_zero_iff, Nat.testBit_or, testBit_SIGNAL_MASK] at h
  simp at h

theorem lor_SIGNAL_MASK_ne_zero (s c : Nat) : s ||| SIGNAL_MASK c ≠ 0 := by
  intro h
  exact SIGNAL_MASK_ne_zero c ((lor_eq_zero_iff _ _).mp h).2

theorem Signal_maskable_device (m : Nat) (r : Bool) (w : World) :
    (Signal m r w).2.disp.maskable_ = w.disp.maskable_
      ∧ (Signal m r w).2.disp.device_ = w.disp.device_ := by
  unfold Signal event_signal_etc
  cases h : w.thread <;> simp [h]

theorem signalAll_maskable_device (r : Bool) (ms : List Nat) (w : World) :
    (signalAll r ms w).disp.maskable_ = w.disp.maskable_
      ∧ (signalAll r ms w).disp.device_ = w.disp.device_ := by
  induction ms generalizing w with
  | nil => exact ⟨rfl, rfl⟩
  | cons m ms ih =>
    have h := Signal_maskable_device m r w
    rw [signalAll, (ih _).1, (ih _).2]
    exact h

theorem Wait_of_outside_ok (c : Nat) (w : World)
    (hth : w.thread = .idle ∨ ∃ st o, w.thread = .returned st o)
    (h0 : w.disp.signals_ ≠ 0) (hc : w.disp.signals_ &&& SIGNAL_MASK c = 0) :
    (Wait c w).thread = .returned ZX_OK (some w.disp.signals_)
      ∧ (Wait c w).disp.signals_ = 0 := by
  unfold Wait
  rw [callWait_of_outside w hth]
  have h := runWait_loopHead_ok c 7 { w with thread := .loopHead } rfl h0 hc
  rw [show runWait c 8 { w with thread := Thread.loopHead }
    = runWait c (7 + 1) { w with thread := Thread.loopHead } from rfl, h]
  exact ⟨rfl, rfl⟩

theorem Wait_of_outside_empty (c : Nat) (w : World)
    (hth : w.thread = .idle ∨ ∃ st o, w.thread = .returned st o)
    (h0 : w.disp.signals_ = 0)
    (hdev : w.disp.maskable_ = true → w.disp.device_.isSome = true) :
    (Wait c w).thread = .parked ∧ (Wait c w).disp.signals_ = 0
      ∧ (Wait c w).disp.event_.signaled = false := by
  obtain ⟨⟨⟨s, ⟨sg⟩, ints⟩, irq, mk, dev⟩, th, calls, msk⟩ := w
  simp only at hth h0 hdev
  subst h0
  rcases hth with h | ⟨st, o, h⟩ <;> subst h <;> cases mk <;> cases dev <;> cases sg <;>
    simp_all [Wait, callWait, runWait, waitStep, PreWait, event_wait_deadline]

theorem Wait_after_Cancel (c : Nat) (w : World)
    (hdev : w.disp.maskable_ = true → w.disp.device_.isSome = true)
    (hth : w.thread.cancellable = true) :
    (Wait c (Cancel c w).2).thread = .returned ZX_ERR_CANCELED none
      ∧ (Wait c (Cancel c w).2).disp.signals_ = 0
      ∧ (Wait c (Cancel c w).2).disp.maskable_ = w.disp.maskable_
      ∧ (Wait c (Cancel c w).2).disp.device_ = w.disp.device_ := by
  obtain ⟨⟨⟨s, ⟨sg⟩, ints⟩, irq, mk, dev⟩, th, calls, msk⟩ := w
  simp only at hdev
  have h1 := lor_SIGNAL_MASK_land s c
  have h2 := lor_SIGNAL_MASK_ne_zero s c
  cases th <;> cases mk <;> cases dev <;>
    simp_all [Thread.cancellable, Wait, Cancel, Signal, event_signal_etc, callWait, runWait,
      waitStep, PreWait, event_wait_deadline, PostWait]

/-- What a `Wait` does that is called after an earlier `Wait` returned with an empty pending
mask left behind, when the slot-only masks `ms` have been raised in between: it returns
`ZX_OK` with their union when that is non-zero and parks otherwise. -/
theorem Wait_after_return (c : Nat) (r : Bool) (ms : List Nat) (w : World)
    (hth : ∃ st o, w.thread = .returned st o) (h0 : w.disp.signals_ = 0)
    (hdev : w.disp.maskable_ = true → w.disp.device_.isSome = true)
    (hslot : ∀ m ∈ ms, m &&& SIGNAL_MASK c = 0) :
    (maskUnion ms ≠ 0 →
        (Wait c (signalAll r ms w)).thread = .returned ZX_OK (some (maskUnion ms)))
      ∧ (maskUnion ms = 0 → (Wait c (signalAll r ms w)).thread = .parked) := by
  have hnp : w.thread ≠ .parked := by
    obtain ⟨st, o, h⟩ := hth
    rw [h]; simp
  have hth1 : (signalAll r ms w).thread = w.thread := signalAll_thread_of_ne_parked r ms w hnp
  have hsig : (signalAll r ms w).disp.signals_ = maskUnion ms := by
    rw [signalAll_signals_, h0, Nat.zero_or]
  have hout : (signalAll r ms w).thread = .idle
      ∨ ∃ st o, (signalAll r ms w).thread = .returned st o := by
    rw [hth1]; exact Or.inr hth
  constructor
  · intro hne
    have h := Wait_of_outside_ok c (signalAll r ms w) hout (by rw [hsig]; exact hne)
      (by rw [hsig]; exact maskUnion_land_SIGNAL_MASK ms c hslot)
    rw [h.1, hsig]
  · intro hz
    have hmd := signalAll_maskable_device r ms w
    exact (Wait_of_outside_empty c (signalAll r ms w) hout (by rw [hsig]; exact hz)
      (by rw [hmd.1, hmd.2]; exact hdev)).1

/-- Claim C2.  From every state of a dispatcher whose `PreWait` can run (the device reference
is there if the dispatcher is maskable), with the consumer thread outside `Wait`, parked, or
anywhere else in `Wait` short of a failure, one `Cancel` makes the next `Wait`, the one
already blocked or the one that starts afterwards, return `ZX_ERR_CANCELED`.  The `Wait`
after that, with no further `Cancel` but with any slot-only masks `ms` raised in the meantime,
does not return `ZX_ERR_CANCELED`: it returns `ZX_OK` with the union of `ms` when that is
non-zero, and it blocks otherwise. -/
theorem Cancel_reaches_one_Wait (c : Nat) (w : World)
    (hdev : w.disp.maskable_ = true → w.disp.device_.isSome = true)
    (hth : w.thread.cancellable = true) :
    (Wait c (Cancel c w).2).thread = .returned ZX_ERR_CANCELED none
      ∧ ∀ (r : Bool) (ms : List Nat), (∀ m ∈ ms, m &&& SIGNAL_MASK c = 0) →
          (∀ o, (Wait c (signalAll r ms (Wait c (Cancel c w).2))).thread
              ≠ .returned ZX_ERR_CANCELED o)
            ∧ (maskUnion ms ≠ 0 →
                (Wait c (signalAll r ms (Wait c (Cancel c w).2))).thread
                  = .returned ZX_OK (some (maskUnion ms)))
            ∧ (maskUnion ms = 0 →
                (Wait c (signalAll r ms (Wait c (Cancel c w).2))).thread = .parked) := by
  obtain ⟨h1, h2, h3, h4⟩ := Wait_after_Cancel c w hdev hth
  refine ⟨h1, ?_⟩
  intro r ms hslot
  have h := Wait_after_return c r ms (Wait c (Cancel c w).2) ⟨_, _, h1⟩ h2
    (by rw [h3, h4]; exact hdev) hslot
  refine ⟨?_, h.1, h.2⟩
  intro o
  by_cases hz : maskUnion ms = 0
  · rw [h.2 hz]; simp
  · rw [h.1 hz]; simp

theorem Cancel_reaches_one_Wait_witness :
    (Wait 63 (Cancel 63 { sampleWorld with thread := .parked }).2).thread
        = .returned ZX_ERR_CANCELED none
      ∧ (Wait 63 (signalAll false [] (Wait 63
          (Cancel 63 { sampleWorld with thread := .parked }).2))).thread = .parked :=
  have h := Cancel_reaches_one_Wait 63 { sampleWorld with thread := .parked }
    (by decide) (by decide)
  ⟨h.1, (h.2 false [] (by decide)).2.2 (by decide)⟩

/-! ### A signal between the pending check and the block -/

theorem lor_land_right (s m : Nat) : (s ||| m) &&& m = m := by
  apply Nat.eq_of_testBit_eq
  intro i
  rw [Nat.testBit_and, Nat.testBit_or]
  cases s.testBit i <;> cases m.testBit i <;> rfl

theorem lor_land_SIGNAL_MASK (s m c : Nat) (hs : s &&& SIGNAL_MASK c = 0)
    (hm : m &&& SIGNAL_MASK c = 0) : (s ||| m) &&& SIGNAL_MASK c = 0 := by
  rw [Nat.and_distrib_right, hs, hm]
  rfl

/-- Claim C3.  Let the consumer thread stand between the exchange that returned zero and the
block, before or after the `PreWait` hook, with no cancellation pending, and let `Signal(m)`
with a non-zero slot mask `m` happen there.  The signal wakes nobody and leaves the ready mark
on the event; the thread never parks: within two steps its `event_wait_deadline` has returned
`ZX_OK`, it reads the pending mask again, and this same `Wait` returns `ZX_OK` with an
`out_signals` that contains every bit of `m`. -/
theorem Signal_before_block_is_not_lost (c m : Nat) (r : Bool) (w : World)
    (hpc : w.thread = .preWait ∨ w.thread = .eventWait)
    (hdev : w.disp.maskable_ = true → w.disp.device_.isSome = true)
    (hp : w.disp.signals_ &&& SIGNAL_MASK c = 0)
    (hm : m ≠ 0) (hmc : m &&& SIGNAL_MASK c = 0) :
    (Signal m r w).1 = 0
      ∧ (Signal m r w).2.disp.event_.signaled = true
      ∧ (∃ k, k ≤ 2 ∧ (runWait c k (Signal m r w).2).thread = .woken ZX_OK)
      ∧ (∀ k, (runWait c k (Signal m r w).2).thread ≠ .parked)
      ∧ (Wait c (Signal m r w).2).thread = .returned ZX_OK (some (w.disp.signals_ ||| m))
      ∧ (w.disp.signals_ ||| m) &&& m = m := by
  have hne : w.disp.signals_ ||| m ≠ 0 := fun h => hm ((lor_eq_zero_iff _ _).mp h).2
  have hcl := lor_land_SIGNAL_MASK _ _ c hp hmc
  have hsettled : (runWait c 4 (Signal m r w).2).thread
      = .returned ZX_OK (some (w.disp.signals_ ||| m)) := by
    obtain ⟨⟨⟨s, ⟨sg⟩, ints⟩, irq, mk, dev⟩, th, calls, msk⟩ := w
    simp only at hpc hdev hne hcl
    rcases hpc with h | h <;> subst h <;> cases mk <;> cases dev <;>
      simp_all [Signal, event_signal_etc, runWait, waitStep, PreWait, event_wait_deadline,
        PostWait]
  refine ⟨?_, ?_, ?_, ?_, ?_, lor_land_right _ _⟩
  · unfold Signal event_signal_etc
    rcases hpc with h | h <;> simp [h]
  · exact Signal_signaled_of_ne_parked m r w (by rcases hpc with h | h <;> rw [h] <;> simp)
  · obtain ⟨⟨⟨s, ⟨sg⟩, ints⟩, irq, mk, dev⟩, th, calls, msk⟩ := w
    simp only at hpc hdev
    rcases hpc with h | h
    · refine ⟨2, le_refl 2, ?_⟩
      subst h
      cases mk <;> cases dev <;>
        simp_all [Signal, event_signal_etc, runWait, waitStep, PreWait, event_wait_deadline]
    · refine ⟨1, by decide, ?_⟩
      subst h
      simp [Signal, event_signal_etc, runWait, waitStep, event_wait_deadline]
  · intro k
    rcases k with _ | _ | _ | _ | k
    · rw [runWait, Signal_thread_of_ne_parked m r w
        (by rcases hpc with h | h <;> rw [h] <;> simp)]
      rcases hpc with h | h <;> rw [h] <;> simp
    · obtain ⟨⟨⟨s, ⟨sg⟩, ints⟩, irq, mk, dev⟩, th, calls, msk⟩ := w
      simp only at hpc hdev hne hcl
      rcases hpc with h | h <;> subst h <;> cases mk <;> cases dev <;>
        simp_all [Signal, event_signal_etc, runWait, waitStep, PreWait, event_wait_deadline,
          PostWait]
    · obtain ⟨⟨⟨s, ⟨sg⟩, ints⟩, irq, mk, dev⟩, th, calls, msk⟩ := w
      simp only at hpc hdev hne hcl
      rcases hpc with h | h <;> subst h <;> cases mk <;> cases dev <;>
        simp_all [Signal, event_signal_etc, runWait, waitStep, PreWait, event_wait_deadline,
          PostWait]
    · obtain ⟨⟨⟨s, ⟨sg⟩, ints⟩, irq, mk, dev⟩, th, calls, msk⟩ := w
      simp only at hpc hdev hne hcl
      rcases hpc with h | h <;> subst h <;> cases mk <;> cases dev <;>
        simp_all [Signal, event_signal_etc, runWait, waitStep, PreWait, event_wait_deadline,
          PostWait]
    · rw [show k + 1 + 1 + 1 + 1 = 4 + k by omega, runWait_add,
        runWait_of_settled c k _ (by rw [hsettled]; rfl), hsettled]
      simp
  · have hcw : callWait (Signal m r w).2 = (Signal m r w).2 := by
      unfold callWait
      rw [Signal_thread_of_ne_parked m r w (by rcases hpc with h | h <;> rw [h] <;> simp)]
      rcases hpc with h | h <;> simp [h]
    unfold Wait
    rw [hcw, show (8 : Nat) = 4 + 4 from rfl, runWait_add,
      runWait_of_settled c 4 _ (by rw [hsettled]; rfl), hsettled]

theorem Signal_before_block_is_not_lost_witness :
    (Wait 63 (Signal 1 false { sampleWorld with thread := .preWait }).2).thread
      = .returned ZX_OK (some 1) :=
  (Signal_before_block_is_not_lost 63 1 false { sampleWorld with thread := .preWait }
    (Or.inl rfl) (by decide) (by decide) (by decide) (by decide)).2.2.2.2.1

/-! ### The hardware callback -/

theorem set_of_getElem? {α : Type} (l : List α) (i : Nat) (a : α) (h : l[i]? = some a) :
    l.set i a = l := by
  induction l generalizing i with
  | nil => rfl
  | cons x xs ih =>
    cases i with
    | zero =>
      simp only [List.getElem?_cons_zero, Option.some.injEq] at h
      rw [List.set_cons_zero, h]
    | succ i =>
      simp only [List.getElem?_cons_succ] at h
      rw [List.set_cons_succ, ih i h]

theorem Signal_interrupts_ (m : Nat) (r : Bool) (w : World) :
    (Signal m r w).2.disp.interrupts_ = w.disp.interrupts_ := by
  unfold Signal event_signal_etc
  cases h : w.thread <;> simp [h]

/-- One invocation of the callback on a slot record whose timestamp is unset. -/
theorem IrqThunk_of_unset (t ctx : Nat) (w : World) (i : Interrupt)
    (hctx : w.disp.interrupts_[ctx]? = some i) (hreset : i.timestamp = 0) :
    ∃ r, IrqThunk t ctx w = some r
      ∧ r.2.disp.signals_ = w.disp.signals_ ||| SIGNAL_MASK i.slot
      ∧ r.2.disp.interrupts_ = w.disp.interrupts_.set ctx { i with timestamp := t } := by
  unfold IrqThunk
  simp only [hctx, hreset, if_true]
  split
  · exact ⟨_, rfl, Signal_signals_ _ _ _, Signal_interrupts_ _ _ _⟩
  · exact ⟨_, rfl, Signal_signals_ _ _ _, Signal_interrupts_ _ _ _⟩

/-- One invocation of the callback on a slot record whose timestamp is set. -/
theorem IrqThunk_of_set (t ctx : Nat) (w : World) (i : Interrupt)
    (hctx : w.disp.interrupts_[ctx]? = some i) (hset : i.timestamp ≠ 0) :
    ∃ r, IrqThunk t ctx w = some r
      ∧ r.2.disp.signals_ = w.disp.signals_ ||| SIGNAL_MASK i.slot
      ∧ r.2.disp.interrupts_ = w.disp.interrupts_ := by
  unfold IrqThunk
  simp only [hctx, hset, if_false]
  have hl : w.disp.interrupts_.set ctx i = w.disp.interrupts_ := set_of_getElem? _ _ _ hctx
  split
  · refine ⟨_, rfl, Signal_signals_ _ _ _, ?_⟩
    rw [Signal_interrupts_]
    exact hl
  · refine ⟨_, rfl, Signal_signals_ _ _ _, ?_⟩
    rw [Signal_interrupts_]
    exact hl

theorem irqAll_of_set (ctx : Nat) (ts : List Nat) (w : World) (i : Interrupt)
    (hctx : w.disp.interrupts_[ctx]? = some i) (hset : i.timestamp ≠ 0)
    (hbit : w.disp.signals_ ||| SIGNAL_MASK i.slot = w.disp.signals_) :
    ∃ w1, irqAll ctx ts w = some w1 ∧ w1.disp.signals_ = w.disp.signals_
      ∧ w1.disp.interrupts_ = w.disp.interrupts_ := by
  induction ts generalizing w with
  | nil => exact ⟨w, rfl, rfl, rfl⟩
  | cons t ts ih =>
    obtain ⟨r, hr, hs, hi⟩ := IrqThunk_of_set t ctx w i hctx hset
    obtain ⟨w1, h1, h2, h3⟩ := ih r.2 (by rw [hi]; exact hctx) (by rw [hs, hbit]; exact hbit)
    refine ⟨w1, ?_, ?_, ?_⟩
    · rw [irqAll, hr]
      exact h1
    · rw [h2, hs, hbit]
    · rw [h3, hi]

/-- Claim C4, as the code has it.  Let the callback `IrqThunk` be invoked on the same slot at
the times `t1 :: ts`, with the slot's timestamp unset (zero) before and no `Wait` step in
between, and let `t1` be non-zero.  Then all invocations succeed, the pending mask is the one
a single invocation leaves, namely the old mask with the slot's bit OR-ed in, and the slot
records the time `t1` of the first invocation while every other slot record is as before. -/
theorem IrqThunk_coalesces (ctx t1 : Nat) (ts : List Nat) (w : World) (i : Interrupt)
    (hctx : w.disp.interrupts_[ctx]? = some i) (hreset : i.timestamp = 0) (ht : t1 ≠ 0) :
    ∃ w1 r, irqAll ctx (t1 :: ts) w = some w1 ∧ IrqThunk t1 ctx w = some r
      ∧ w1.disp.signals_ = r.2.disp.signals_
      ∧ w1.disp.signals_ = w.disp.signals_ ||| SIGNAL_MASK i.slot
      ∧ w1.disp.signals_.testBit i.slot = true
      ∧ w1.disp.interrupts_[ctx]? = some { i with timestamp := t1 }
      ∧ w1.disp.interrupts_ = w.disp.interrupts_.set ctx { i with timestamp := t1 } := by
  obtain ⟨r, hr, hs, hi⟩ := IrqThunk_of_unset t1 ctx w i hctx hreset
  have hlen : ctx < w.disp.interrupts_.length := by
    rcases Nat.lt_or_ge ctx w.disp.interrupts_.length with h | h
    · exact h
    · rw [List.getElem?_eq_none h] at hctx
      cases hctx
  have hget : r.2.disp.interrupts_[ctx]? = some { i with timestamp := t1 } := by
    rw [hi, List.getElem?_set_self hlen]
  obtain ⟨w1, h1, h2, h3⟩ := irqAll_of_set ctx ts r.2 { i with timestamp := t1 } hget ht
    (by rw [hs, Nat.or_assoc, Nat.or_self])
  refine ⟨w1, r, ?_, hr, h2, by rw [h2, hs], ?_, by rw [h3]; exact hget, by rw [h3, hi]⟩
  · rw [irqAll, hr]
    exact h1
  · rw [h2, hs, Nat.testBit_or, testBit_SIGNAL_MASK]
    simp

theorem IrqThunk_coalesces_witness :
    ∃ w1 r, irqAll 0 [3, 5, 8] sampleWorld = some w1 ∧ IrqThunk 3 0 sampleWorld = some r
      ∧ w1.disp.signals_ = r.2.disp.signals_
      ∧ w1.disp.signals_ = sampleWorld.disp.signals_ ||| SIGNAL_MASK 0
      ∧ w1.disp.signals_.testBit 0 = true
      ∧ w1.disp.interrupts_[0]? = some { timestamp := 3, flags := 0, vector := 7, slot := 0 }
      ∧ w1.disp.interrupts_ = sampleWorld.disp.interrupts_.set 0
          { timestamp := 3, flags := 0, vector := 7, slot := 0 } :=
  IrqThunk_coalesces 0 3 [5, 8] sampleWorld { timestamp := 0, flags := 0, vector := 7, slot := 0 }
    rfl rfl (by decide)

/-- Claim C4 as stated fails at time zero.  On a slot whose timestamp is unset, invocations at
the times `0 ≤ 5` leave the timestamp `5`, the time of the second invocation, not `0`, the
time of the earliest one: zero is the marker for "unset", so the invocation at time zero
records nothing. -/
theorem IrqThunk_at_time_zero :
    (0 : Nat) ≤ 5
      ∧ sampleWorld.disp.interrupts_.map (fun i => i.timestamp) = [0]
      ∧ (irqAll 0 [0, 5] sampleWorld).map (fun w => w.disp.interrupts_.map fun i => i.timestamp)
          = some [5]
      ∧ (irqAll 0 [0, 5] sampleWorld).map (fun w => w.disp.interrupts_.map fun i => i.timestamp)
          ≠ some [0] := by
  decide

/-! ### Create -/

/-- Claim C5.  `Create` returns `ZX_ERR_INVALID_ARGS` whenever the device reference, the rights
output or the dispatcher output is null, whatever the irq id; with all three non-null it
returns `ZX_ERR_INTERNAL` whenever `is_valid_interrupt(irq_id, 0)` is false.  In both cases
it has no effect at all (no allocation, no `AddSlot`, no call on the bus layer, so no handler
registered and no `UnmaskIrq`) and writes neither output. -/
theorem Create_rejects_bad_arguments (K : Kernel) (alloc_ok : Bool) (device : Option Nat)
    (irq_id : Nat) (maskable out_rights out_interrupt : Bool) :
    ((device = none ∨ out_rights = false ∨ out_interrupt = false) →
        Create K alloc_ok device irq_id maskable out_rights out_interrupt
          = { status := ZX_ERR_INVALID_ARGS, out_rights := none, out_interrupt := none,
              effects := [] })
      ∧ (device ≠ none → out_rights = true → out_interrupt = true →
          K.is_valid_interrupt irq_id 0 = false →
          Create K alloc_ok device irq_id maskable out_rights out_interrupt
            = { status := ZX_ERR_INTERNAL, out_rights := none, out_interrupt := none,
                effects := [] }) := by
  constructor
  · intro h
    unfold Create
    cases device with
    | none => rfl
    | some dev =>
      rcases h with h | h | h
      · cases h
      · simp [h]
      · simp [h]
  · intro hd hr hi hv
    unfold Create
    cases device with
    | none => exact absurd rfl hd
    | some dev => simp [hr, hi, hv]

theorem Create_rejects_bad_arguments_witness :
    Create (sampleKernel ZX_OK) true (some 1) 7 true false true
        = { status := ZX_ERR_INVALID_ARGS, out_rights := none, out_interrupt := none,
            effects := [] }
      ∧ Create (sampleKernel ZX_OK) true (some 1) 300 true true true
        = { status := ZX_ERR_INTERNAL, out_rights := none, out_interrupt := none,
            effects := [] } :=
  ⟨(Create_rejects_bad_arguments (sampleKernel ZX_OK) true (some 1) 7 true false true).1
      (Or.inr (Or.inl rfl)),
    (Create_rejects_bad_arguments (sampleKernel ZX_OK) true (some 1) 300 true true true).2
      (by decide) rfl rfl (by decide)⟩

/-- Claim C6.  `Create` fails atomically.  With valid arguments and a successful allocation,
whenever `AddSlot` returns a status other than `ZX_OK`, `Create` returns exactly that status
and writes neither output; after `AddSlot` its only effect is the destruction of the new
dispatcher, which the destructor finds with a null device reference, so that the destructor
makes no call on the device; in particular `Create` makes no `UnmaskIrq` call.  When the
allocation fails, `Create` returns `ZX_ERR_NO_MEMORY`, writes neither output, and the failed
allocation is its only effect. -/
theorem Create_fails_atomically (K : Kernel) (dev irq_id : Nat) (maskable : Bool)
    (hvalid : K.is_valid_interrupt irq_id 0 = true) :
    Create K false (some dev) irq_id maskable true true
        = { status := ZX_ERR_NO_MEMORY, out_rights := none, out_interrupt := none,
            effects := [Effect.alloc false] }
      ∧ ((K.AddSlot IRQ_SLOT irq_id 0
            { PciInterruptDispatcher.new irq_id maskable with device_ := some dev }).1 ≠ ZX_OK →
          ∃ d : PciInterruptDispatcher,
            Create K true (some dev) irq_id maskable true true
              = { status := (K.AddSlot IRQ_SLOT irq_id 0
                    { PciInterruptDispatcher.new irq_id maskable with device_ := some dev }).1,
                  out_rights := none, out_interrupt := none,
                  effects := [Effect.alloc true, Effect.addSlot IRQ_SLOT irq_id 0]
                    ++ (K.AddSlot IRQ_SLOT irq_id 0
                          { PciInterruptDispatcher.new irq_id maskable with
                            device_ := some dev }).2.2.map Effect.call
                    ++ [Effect.destroy d] }
            ∧ d.device_ = none
            ∧ destroy K d = (d, [], true)) := by
  constructor
  · unfold Create
    simp [hvalid]
  · intro hfail
    refine ⟨{ PciInterruptDispatcher.new irq_id maskable with
              interrupts_ := (K.AddSlot IRQ_SLOT irq_id 0
                { PciInterruptDispatcher.new irq_id maskable with device_ := some dev }).2.1,
              device_ := none }, ?_, rfl, rfl⟩
    unfold Create
    simp [hvalid, hfail, destroy]

theorem Create_fails_atomically_witness :
    Create (sampleKernel ZX_ERR_INTERNAL) false (some 1) 7 true true true
        = { status := ZX_ERR_NO_MEMORY, out_rights := none, out_interrupt := none,
            effects := [Effect.alloc false] }
      ∧ ∃ d : PciInterruptDispatcher,
          Create (sampleKernel ZX_ERR_INTERNAL) true (some 1) 7 true true true
            = { status := ZX_ERR_INTERNAL, out_rights := none, out_interrupt := none,
                effects := [Effect.alloc true, Effect.addSlot 0 7 0,
                  Effect.call (PcieCall.RegisterIrqHandler 1 7 true), Effect.destroy d] }
          ∧ d.device_ = none
          ∧ destroy (sampleKernel ZX_ERR_INTERNAL) d = (d, [], true) :=
  have h := Create_fails_atomically (sampleKernel ZX_ERR_INTERNAL) 1 7 true (by decide)
  ⟨h.1, h.2 (by decide)⟩

/-- Claim C7.  With valid arguments, a successful allocation and a successful
`AddSlot(IRQ_SLOT = 0, irq_id, 0)`, `Create` returns `ZX_OK`, writes
`ZX_DEFAULT_PCI_INTERRUPT_RIGHTS` to `out_rights` and the new dispatcher to `out_interrupt`;
the dispatcher holds the given device, irq id and maskable flag and an empty pending mask;
after `AddSlot`, `Create` calls `UnmaskIrq(irq_id)` on the device exactly once if `maskable`
and makes no call if not. -/
theorem Create_succeeds (K : Kernel) (dev irq_id : Nat) (maskable : Bool)
    (hvalid : K.is_valid_interrupt irq_id 0 = true)
    (hadd : (K.AddSlot IRQ_SLOT irq_id 0
      { PciInterruptDispatcher.new irq_id maskable with device_ := some dev }).1 = ZX_OK) :
    ∃ d : PciInterruptDispatcher,
      Create K true (some dev) irq_id maskable true true
        = { status := ZX_OK, out_rights := some K.ZX_DEFAULT_PCI_INTERRUPT_RIGHTS,
            out_interrupt := some d,
            effects := [Effect.alloc true, Effect.addSlot IRQ_SLOT irq_id 0]
              ++ (K.AddSlot IRQ_SLOT irq_id 0
                    { PciInterruptDispatcher.new irq_id maskable with
                      device_ := some dev }).2.2.map Effect.call
              ++ (if maskable then [Effect.call (PcieCall.UnmaskIrq dev irq_id)] else []) }
      ∧ d.device_ = some dev ∧ d.irq_id_ = irq_id ∧ d.maskable_ = maskable
      ∧ d.signals_ = 0
      ∧ d.interrupts_ = (K.AddSlot IRQ_SLOT irq_id 0
          { PciInterruptDispatcher.new irq_id maskable with device_ := some dev }).2.1 := by
  refine ⟨{ PciInterruptDispatcher.new irq_id maskable with
            interrupts_ := (K.AddSlot IRQ_SLOT irq_id 0
              { PciInterruptDispatcher.new irq_id maskable with device_ := some dev }).2.1,
            device_ := some dev }, ?_, rfl, rfl, rfl, rfl, rfl⟩
  unfold Create
  simp [hvalid, hadd]

theorem Create_succeeds_witness :
    ∃ d : PciInterruptDispatcher,
      Create (sampleKernel ZX_OK) true (some 1) 7 true true true
        = { status := ZX_OK, out_rights := some 15, out_interrupt := some d,
            effects := [Effect.alloc true, Effect.addSlot 0 7 0,
              Effect.call (PcieCall.RegisterIrqHandler 1 7 true),
              Effect.call (PcieCall.UnmaskIrq 1 7)] }
      ∧ d.device_ = some 1 ∧ d.irq_id_ = 7 ∧ d.maskable_ = true ∧ d.signals_ = 0
      ∧ d.interrupts_ = [{ timestamp := 0, flags := 0, vector := 7, slot := 0 }] :=
  Create_succeeds (sampleKernel ZX_OK) 1 7 true (by decide) (by decide)

/-! ### Teardown -/

/-- Claim C8.  On a dispatcher that holds its device reference, as every successfully created
one does, `on_zero_handles` first calls `MaskIrq(irq_id)` on the device if and only if the
dispatcher is maskable and then performs `Cancel()`: the cancellation bit is OR-ed into the
pending mask and the event is signalled, which wakes a parked thread and leaves the ready
mark otherwise.  As a result the `Wait` that was blocked, or the next `Wait` to be called,
returns `ZX_ERR_CANCELED`. -/
theorem on_zero_handles_masks_then_cancels (c dev : Nat) (w : World)
    (hdev : w.disp.device_ = some dev) (hth : w.thread.cancellable = true) :
    ∃ w1, on_zero_handles c w = some w1
      ∧ w1 = (Cancel c { w with
                calls := w.calls ++
                  (if w.disp.maskable_ then [PcieCall.MaskIrq dev w.disp.irq_id_] else []),
                masked := w.disp.maskable_ || w.masked }).2
      ∧ w1.calls = w.calls ++
          (if w.disp.maskable_ then [PcieCall.MaskIrq dev w.disp.irq_id_] else [])
      ∧ w1.disp.signals_ = w.disp.signals_ ||| SIGNAL_MASK c
      ∧ (w.thread = .parked → w1.thread = .woken ZX_OK)
      ∧ (w.thread ≠ .parked → w1.thread = w.thread ∧ w1.disp.event_.signaled = true)
      ∧ (Wait c w1).thread = .returned ZX_ERR_CANCELED none := by
  have hex : on_zero_handles c w = some (Cancel c { w with
      calls := w.calls ++
        (if w.disp.maskable_ then [PcieCall.MaskIrq dev w.disp.irq_id_] else []),
      masked := w.disp.maskable_ || w.masked }).2 := by
    unfold on_zero_handles
    cases hm : w.disp.maskable_ <;> simp [hdev]
  refine ⟨_, hex, rfl, ?_, ?_, ?_, ?_, ?_⟩
  · unfold Cancel
    rw [Signal_calls]
  · unfold Cancel
    rw [Signal_signals_]
  · intro hp
    unfold Cancel
    exact Signal_thread_of_parked _ _ _ hp
  · intro hp
    unfold Cancel
    exact ⟨Signal_thread_of_ne_parked _ _ _ hp, Signal_signaled_of_ne_parked _ _ _ hp⟩
  · exact (Wait_after_Cancel c { w with
      calls := w.calls ++
        (if w.disp.maskable_ then [PcieCall.MaskIrq dev w.disp.irq_id_] else []),
      masked := w.disp.maskable_ || w.masked } (by intro _; simp [hdev]) hth).1

theorem on_zero_handles_masks_then_cancels_witness :
    ∃ w1, on_zero_handles 63 { sampleWorld with thread := .parked } = some w1
      ∧ w1.calls = [PcieCall.MaskIrq 1 7]
      ∧ w1.disp.signals_ = SIGNAL_MASK 63
      ∧ w1.thread = .woken ZX_OK
      ∧ (Wait 63 w1).thread = .returned ZX_ERR_CANCELED none :=
  have ⟨w1, h1, _, h3, h4, h5, _, h7⟩ := on_zero_handles_masks_then_cancels 63 1
    { sampleWorld with thread := .parked } rfl (by decide)
  ⟨w1, h1, h3, h4, h5 rfl, h7⟩

/-! ### The returns of Wait -/

theorem waitStep_returns (c : Nat) (w : World) (st : zx_status_t) (out : Option Nat)
    (hnot : ∀ s o, w.thread ≠ .returned s o)
    (hret : (waitStep c w).thread = .returned st out) : ReturnsBy c w st out := by
  unfold ReturnsBy
  unfold waitStep at hret
  cases ht : w.thread with
  | idle => rw [ht] at hret; simp [ht] at hret
  | loopHead =>
    rw [ht] at hret
    by_cases h0 : w.disp.signals_ = 0
    · simp [h0] at hret
    · by_cases hc : w.disp.signals_ &&& SIGNAL_MASK c = 0
      · simp [h0, hc, PostWait] at hret
        exact Or.inl ⟨rfl, h0, hc, hret.1.symm, hret.2.symm⟩
      · simp [h0, hc] at hret
        exact Or.inr (Or.inl ⟨rfl, hc, hret.1.symm, hret.2.symm⟩)
  | preWait =>
    rw [ht] at hret
    cases hp : PreWait w with
    | none => simp [hp] at hret
    | some w1 => simp [hp] at hret
  | eventWait =>
    rw [ht] at hret
    unfold event_wait_deadline at hret
    by_cases hs : w.disp.event_.signaled = true
    · simp [hs] at hret
    · simp [hs] at hret
  | parked => rw [ht] at hret; simp [ht] at hret
  | woken s =>
    rw [ht] at hret
    by_cases hs : s = ZX_OK
    · simp [hs] at hret
    · simp [hs] at hret
      refine Or.inr (Or.inr ⟨?_, ?_, hret.2.symm⟩)
      · rw [hret.1]
      · rw [← hret.1]; exact hs
  | returned s o => exact absurd ht (hnot s o)
  | fault => rw [ht] at hret; simp [ht] at hret

theorem waitStep_of_woken (c : Nat) (w : World) (st : zx_status_t) (ht : w.thread = .woken st)
    (hst : st ≠ ZX_OK) : waitStep c w = { w with thread := .returned st none } := by
  unfold waitStep
  simp [ht, hst]

theorem runWait_returns (c : Nat) (n : Nat) (w : World) (st : zx_status_t) (out : Option Nat)
    (hnot : ∀ s o, w.thread ≠ .returned s o)
    (hret : (runWait c n w).thread = .returned st out) :
    ∃ k, k < n ∧ ReturnsBy c (runWait c k w) st out := by
  induction n generalizing w with
  | zero => exact absurd hret (hnot st out)
  | succ n ih =>
    rw [runWait] at hret
    by_cases hstep : ∃ s o, (waitStep c w).thread = .returned s o
    · obtain ⟨s, o, hso⟩ := hstep
      rw [runWait_of_settled c n _ (by rw [hso]; rfl)] at hret
      exact ⟨0, Nat.succ_pos n, waitStep_returns c w st out hnot hret⟩
    · obtain ⟨k, hk, hby⟩ := ih (waitStep c w) (fun s o h => hstep ⟨s, o, h⟩) hret
      exact ⟨k + 1, Nat.succ_lt_succ hk, hby⟩

/-- Claim C9.  Every return of `Wait` comes about in one of three ways (`ReturnsBy`): `ZX_OK`
with the mask taken, `ZX_ERR_CANCELED` because the mask taken had the cancellation bit, or
the status other than `ZX_OK` that `event_wait_deadline` returned, passed on unchanged.  This
holds for the single step that returns and for every run of the thread.  A status other than
`ZX_OK` and `ZX_ERR_CANCELED` is returned by a step if and only if the blocking primitive
returned that status, and `WaitForInterrupt` is `Wait`. -/
theorem Wait_returns_three_ways (c : Nat) (w : World)
    (hnot : ∀ s o, w.thread ≠ .returned s o) :
    (∀ st out, (waitStep c w).thread = .returned st out → ReturnsBy c w st out)
      ∧ (∀ n st out, (runWait c n w).thread = .returned st out →
          ∃ k, k < n ∧ ReturnsBy c (runWait c k w) st out)
      ∧ (∀ st, st ≠ ZX_OK → st ≠ ZX_ERR_CANCELED →
          ((∃ out, (waitStep c w).thread = .returned st out) ↔ w.thread = .woken st))
      ∧ (∀ st, st ≠ ZX_OK → w.thread = .woken st →
          waitStep c w = { w with thread := .returned st none })
      ∧ WaitForInterrupt c w = Wait c w := by
  refine ⟨fun st out h => waitStep_returns c w st out hnot h,
    fun n st out h => runWait_returns c n w st out hnot h, ?_,
    fun st hst ht => waitStep_of_woken c w st ht hst, rfl⟩
  intro st hok hcan
  constructor
  · rintro ⟨out, h⟩
    rcases waitStep_returns c w st out hnot h with h1 | h1 | h1
    · exact absurd h1.2.2.2.1 hok
    · exact absurd h1.2.2.1 hcan
    · exact h1.1
  · intro ht
    exact ⟨none, by rw [waitStep_of_woken c w st ht hok]⟩

theorem Wait_returns_three_ways_witness :
    (∃ out, (waitStep 63 { sampleWorld with thread := .woken ZX_ERR_INTERNAL }).thread
        = .returned ZX_ERR_INTERNAL out)
      ∧ WaitForInterrupt 63 { sampleWorld with thread := .woken ZX_ERR_INTERNAL }
        = Wait 63 { sampleWorld with thread := .woken ZX_ERR_INTERNAL } :=
  have h := Wait_returns_three_ways 63 { sampleWorld with thread := .woken ZX_ERR_INTERNAL }
    (fun _ _ hso => Thread.noConfusion hso)
  ⟨(h.2.2.1 ZX_ERR_INTERNAL (by decide) (by decide)).mpr rfl, h.2.2.2.2⟩

/-! ### Cancel is idempotent -/

theorem Cancel_cancellable (c : Nat) (w : World) (hth : w.thread.cancellable = true) :
    (Cancel c w).2.thread.cancellable = true := by
  unfold Cancel Signal event_signal_etc
  cases ht : w.thread <;> simp_all [Thread.cancellable]

/-- Claim C10.  `Cancel()` is `Signal(SIGNAL_MASK(ZX_INTERRUPT_CANCEL), true)`, with the same
effect and the same return value.  It is idempotent: from every state the pending mask after
two consecutive `Cancel` calls is the pending mask after one, namely the old mask with the
cancellation bit set, and every other bit of the pending mask is as before.  On a dispatcher
whose `PreWait` can run, with the thread in a state a `Cancel` can reach, the two calls
together make exactly one `Wait` return `ZX_ERR_CANCELED`: the next one does, and the one
after it, with nothing raised in between, parks. -/
theorem Cancel_is_idempotent (c : Nat) (w : World)
    (hdev : w.disp.maskable_ = true → w.disp.device_.isSome = true)
    (hth : w.thread.cancellable = true) :
    Cancel c w = Signal (SIGNAL_MASK c) true w
      ∧ (Cancel c (Cancel c w).2).2.disp.signals_ = (Cancel c w).2.disp.signals_
      ∧ (Cancel c w).2.disp.signals_ = w.disp.signals_ ||| SIGNAL_MASK c
      ∧ (∀ i, i ≠ c →
          (Cancel c (Cancel c w).2).2.disp.signals_.testBit i = w.disp.signals_.testBit i)
      ∧ (Cancel c (Cancel c w).2).2.disp.signals_.testBit c = true
      ∧ (Wait c (Cancel c (Cancel c w).2).2).thread = .returned ZX_ERR_CANCELED none
      ∧ (Wait c (Wait c (Cancel c (Cancel c w).2).2)).thread = .parked := by
  have h1 : (Cancel c w).2.disp.signals_ = w.disp.signals_ ||| SIGNAL_MASK c :=
    Signal_signals_ _ _ _
  have h2 : (Cancel c (Cancel c w).2).2.disp.signals_ = w.disp.signals_ ||| SIGNAL_MASK c := by
    have h := Signal_signals_ (SIGNAL_MASK c) true (Cancel c w).2
    unfold Cancel at h ⊢
    rw [h, Signal_signals_, Nat.or_assoc, Nat.or_self]
  have hmd := Signal_maskable_device (SIGNAL_MASK c) true w
  have hdev1 : (Cancel c w).2.disp.maskable_ = true → (Cancel c w).2.disp.device_.isSome = true := by
    unfold Cancel
    rw [hmd.1, hmd.2]
    exact hdev
  obtain ⟨w1, w2, w3, w4⟩ := Wait_after_Cancel c (Cancel c w).2 hdev1 (Cancel_cancellable c w hth)
  refine ⟨rfl, by rw [h2, h1], h1, ?_, ?_, w1, ?_⟩
  · intro i hi
    rw [h2, Nat.testBit_or, testBit_SIGNAL_MASK]
    simp [Ne.symm hi]
  · rw [h2, Nat.testBit_or, testBit_SIGNAL_MASK]
    simp
  · exact (Wait_of_outside_empty c _ (Or.inr ⟨_, _, w1⟩) w2 (by rw [w3, w4]; exact hdev1)).1

theorem Cancel_is_idempotent_witness :
    (Cancel 63 (Cancel 63 sampleWorld).2).2.disp.signals_ = (Cancel 63 sampleWorld).2.disp.signals_
      ∧ (Wait 63 (Cancel 63 (Cancel 63 sampleWorld).2).2).thread
          = .returned ZX_ERR_CANCELED none
      ∧ (Wait 63 (Wait 63 (Cancel 63 (Cancel 63 sampleWorld).2).2)).thread = .parked :=
  have h := Cancel_is_idempotent 63 sampleWorld (by decide) (by decide)
  ⟨h.2.1, h.2.2.2.2.2.1, h.2.2.2.2.2.2⟩

/-! ### Bind -/

/-- Claim C12.  `Bind` returns `ZX_ERR_NOT_SUPPORTED` for every slot, vector and options value
and in every state, and it changes nothing: the pending mask, the slot table, the device
reference, the calls made on the device and the hardware mask state are as before. -/
theorem Bind_is_not_supported (slot vector options : Nat) (w : World) :
    (Bind slot vector options w).1 = ZX_ERR_NOT_SUPPORTED
      ∧ (Bind slot vector options w).2 = w
      ∧ (Bind slot vector options w).2.disp.signals_ = w.disp.signals_
      ∧ (Bind slot vector options w).2.disp.interrupts_ = w.disp.interrupts_
      ∧ (Bind slot vector options w).2.disp.device_ = w.disp.device_
      ∧ (Bind slot vector options w).2.calls = w.calls
      ∧ (Bind slot vector options w).2.masked = w.masked
      ∧ (∀ c, step c (.bind slot vector options) w = some w) :=
  ⟨rfl, rfl, rfl, rfl, rfl, rfl, rfl, fun _ => rfl⟩

/-! ### The return value of the hardware callback -/

theorem Signal_fst (m : Nat) (r : Bool) (w : World) :
    (0 < (Signal m r w).1 ↔ w.thread = .parked) := by
  unfold Signal event_signal_etc
  cases h : w.thread <;> simp [h]

/-- The state in which `IrqThunk` calls `Signal`: the slot record `ctx` carries the time
`now` if its timestamp was unset. -/
theorem IrqThunk_eq (now ctx : Nat) (w : World) (i : Interrupt)
    (hctx : w.disp.interrupts_[ctx]? = some i) :
    ∃ w1 : World, w1.thread = w.thread ∧ w1.disp.signals_ = w.disp.signals_
      ∧ IrqThunk now ctx w
        = some (if 0 < (Signal (SIGNAL_MASK i.slot) false w1).1
            then .PCIE_IRQRET_MASK_AND_RESCHED else .PCIE_IRQRET_MASK,
          (Signal (SIGNAL_MASK i.slot) false w1).2) := by
  have hslot : (if i.timestamp = 0 then { i with timestamp := now } else i).slot = i.slot := by
    split <;> rfl
  unfold IrqThunk
  simp only [hctx]
  generalize (if i.timestamp = 0 then { i with timestamp := now } else i) = i1 at hslot ⊢
  rw [hslot]
  refine ⟨{ w with disp := { w.disp with interrupts_ := w.disp.interrupts_.set ctx i1 } },
    rfl, rfl, ?_⟩
  split <;> rfl

/-- Claim C14.  On a slot record of the dispatcher, `IrqThunk` returns one of the two values
that tell the bus layer to mask the vector: `PCIE_IRQRET_MASK_AND_RESCHED` if and only if its
`Signal` call returned a count greater than zero, which is the case exactly when the consumer
thread was parked and has been made runnable, and `PCIE_IRQRET_MASK` otherwise.  In both
cases the slot's bit has been OR-ed into the pending mask and every other bit of the pending
mask is as before. -/
theorem IrqThunk_return_value (now ctx : Nat) (w : World) (i : Interrupt)
    (hctx : w.disp.interrupts_[ctx]? = some i) :
    ∃ r, IrqThunk now ctx w = some r
      ∧ (r.1 = .PCIE_IRQRET_MASK_AND_RESCHED ∨ r.1 = .PCIE_IRQRET_MASK)
      ∧ (r.1 = .PCIE_IRQRET_MASK_AND_RESCHED ↔ 0 < (Signal (SIGNAL_MASK i.slot) false w).1)
      ∧ (r.1 = .PCIE_IRQRET_MASK_AND_RESCHED ↔ w.thread = .parked)
      ∧ (r.1 = .PCIE_IRQRET_MASK_AND_RESCHED → r.2.thread = .woken ZX_OK)
      ∧ (r.1 = .PCIE_IRQRET_MASK ↔ w.thread ≠ .parked)
      ∧ r.2.disp.signals_ = w.disp.signals_ ||| SIGNAL_MASK i.slot
      ∧ r.2.disp.signals_.testBit i.slot = true
      ∧ (∀ j, j ≠ i.slot → r.2.disp.signals_.testBit j = w.disp.signals_.testBit j) := by
  obtain ⟨w1, hth, hsig, heq⟩ := IrqThunk_eq now ctx w i hctx
  have hs : (Signal (SIGNAL_MASK i.slot) false w1).2.disp.signals_
      = w.disp.signals_ ||| SIGNAL_MASK i.slot := by
    rw [Signal_signals_, hsig]
  have hpos : 0 < (Signal (SIGNAL_MASK i.slot) false w1).1 ↔ w.thread = .parked := by
    rw [Signal_fst, hth]
  have hw : 0 < (Signal (SIGNAL_MASK i.slot) false w).1 ↔ w.thread = .parked := Signal_fst _ _ _
  have hbit : (w.disp.signals_ ||| SIGNAL_MASK i.slot).testBit i.slot = true := by
    rw [Nat.testBit_or, testBit_SIGNAL_MASK]
    simp
  have hother : ∀ j, j ≠ i.slot →
      (w.disp.signals_ ||| SIGNAL_MASK i.slot).testBit j = w.disp.signals_.testBit j := by
    intro j hj
    rw [Nat.testBit_or, testBit_SIGNAL_MASK]
    simp [Ne.symm hj]
  by_cases hp : w.thread = .parked
  · rw [if_pos (hpos.mpr hp)] at heq
    exact ⟨_, heq, Or.inl rfl, ⟨fun _ => hw.mpr hp, fun _ => rfl⟩, ⟨fun _ => hp, fun _ => rfl⟩,
      fun _ => Signal_thread_of_parked _ _ _ (by rw [hth]; exact hp),
      ⟨fun h => (by cases h), fun h => absurd hp h⟩, hs, (by rw [hs]; exact hbit),
      fun j hj => (by rw [hs]; exact hother j hj)⟩
  · rw [if_neg (fun h => hp (hpos.mp h))] at heq
    exact ⟨_, heq, Or.inr rfl, ⟨fun h => (by cases h), fun h => absurd (hw.mp h) hp⟩,
      ⟨fun h => (by cases h), fun h => absurd h hp⟩, fun h => (by cases h),
      ⟨fun _ => hp, fun _ => rfl⟩, hs, (by rw [hs]; exact hbit),
      fun j hj => (by rw [hs]; exact hother j hj)⟩

theorem IrqThunk_return_value_witness :
    ∃ r, IrqThunk 5 0 { sampleWorld with thread := .parked } = some r
      ∧ r.1 = .PCIE_IRQRET_MASK_AND_RESCHED
      ∧ r.2.disp.signals_ = 1 :=
  have ⟨r, h1, _, _, h4, _, _, h7, _, _⟩ :=
    IrqThunk_return_value 5 0 { sampleWorld with thread := .parked }
      { timestamp := 0, flags := 0, vector := 7, slot := 0 } rfl
  ⟨r, h1, h4.mpr rfl, h7⟩

/-! ### Cancellation consumes the slot bits taken with it -/

/-- Claim C15.  When `Wait` takes a mask that has the cancellation bit, whatever slot bits it
has besides, it returns `ZX_ERR_CANCELED` and leaves the pending mask zero: the cancellation
bit and the slot bits are cleared together by the one exchange.  The `Wait` that follows with
no new `Signal` or `Cancel` is the `Wait` of a dispatcher with an empty pending mask: it
parks, so it neither returns `ZX_ERR_CANCELED` nor reports those slot bits. -/
theorem Canceled_Wait_clears_pending (c : Nat) (w : World)
    (hth : w.thread = .idle ∨ ∃ st o, w.thread = .returned st o)
    (hc : w.disp.signals_ &&& SIGNAL_MASK c ≠ 0)
    (hdev : w.disp.maskable_ = true → w.disp.device_.isSome = true) :
    Wait c w = { w with disp := { w.disp with signals_ := 0 },
                        thread := .returned ZX_ERR_CANCELED none }
      ∧ (Wait c w).disp.signals_ = 0
      ∧ Wait c (Wait c w) = Wait c { w with disp := { w.disp with signals_ := 0 } }
      ∧ (Wait c (Wait c w)).thread = .parked
      ∧ (Wait c (Wait c w)).disp.signals_ = 0
      ∧ (∀ n st o, runWait c n (Wait c (Wait c w)) = Wait c (Wait c w)
          ∧ (Wait c (Wait c w)).thread ≠ .returned st o) := by
  have h1 : Wait c w =
      { w with disp := { w.disp with signals_ := 0 }, thread := .returned ZX_ERR_CANCELED none } := by
    unfold Wait
    rw [callWait_of_outside w hth]
    exact runWait_loopHead_canceled c 7 { w with thread := .loopHead } rfl hc
  have h2 : Wait c (Wait c w) = Wait c { w with disp := { w.disp with signals_ := 0 } } := by
    rw [h1]
    unfold Wait
    rw [callWait_of_outside _ (Or.inr ⟨_, _, rfl⟩),
      callWait_of_outside { w with disp := { w.disp with signals_ := 0 } } hth]
  have h3 := Wait_of_outside_empty c (Wait c w) (Or.inr ⟨_, _, by rw [h1]⟩) (by rw [h1])
    (by rw [h1]; exact hdev)
  refine ⟨h1, by rw [h1], h2, h3.1, h3.2.1, ?_⟩
  intro n st o
  refine ⟨runWait_of_settled c n _ (by rw [h3.1]; rfl), ?_⟩
  rw [h3.1]
  simp

theorem Canceled_Wait_clears_pending_witness :
    (Wait 63 { sampleWorld with disp := { sampleWorld.disp with signals_ := SIGNAL_MASK 63 ||| 5 } }).thread
        = .returned ZX_ERR_CANCELED none
      ∧ (Wait 63 (Wait 63 { sampleWorld with
          disp := { sampleWorld.disp with signals_ := SIGNAL_MASK 63 ||| 5 } })).thread = .parked :=
  have h := Canceled_Wait_clears_pending 63
    { sampleWorld with disp := { sampleWorld.disp with signals_ := SIGNAL_MASK 63 ||| 5 } }
    (Or.inl rfl) (by decide) (by decide)
  ⟨by rw [h.1], h.2.2.2.1⟩

/-! ### What `Wait` writes and when it runs `PostWait` -/

theorem waitStepWith_PostWait (c : Nat) (w : World) : waitStepWith PostWait c w = waitStep c w :=
  rfl

theorem waitStepWith_thread (post : Nat → World → World) (c : Nat) (w : World) :
    (waitStepWith post c w).thread = (waitStep c w).thread := by
  unfold waitStepWith waitStep
  cases w.thread <;> simp only
  split
  · split <;> rfl
  · rfl

theorem waitStepWith_of_not_ok (post : Nat → World → World) (c : Nat) (w : World)
    (h : ∀ out, (waitStep c w).thread ≠ .returned ZX_OK out) :
    waitStepWith post c w = waitStep c w := by
  unfold waitStep at h
  unfold waitStepWith waitStep
  cases ht : w.thread <;> simp only [ht] at h ⊢
  by_cases h0 : w.disp.signals_ = 0
  · simp [h0]
  · by_cases hc : w.disp.signals_ &&& SIGNAL_MASK c = 0
    · simp [h0, hc, PostWait] at h
    · simp [h0, hc]

/-- Claim C18.  Whenever a step of `Wait` returns `ZX_OK`, the value written to `out_signals`
is the mask taken, which is non-zero and does not contain the cancellation bit, and the
`PostWait` hook has been invoked once, on that mask, after the exchange.  Whenever it returns
another status, `ZX_ERR_CANCELED` or the status of the failed event wait, `out_signals` is
not written and the `PostWait` hook is not invoked: the step is the same whatever the hook
does.  The same holds for the return of every run of the thread. -/
theorem Wait_writes_out_signals (c : Nat) (w : World)
    (hnot : ∀ s o, w.thread ≠ .returned s o) :
    (∀ out, (waitStep c w).thread = .returned ZX_OK out →
        out = some w.disp.signals_ ∧ w.disp.signals_ ≠ 0
          ∧ w.disp.signals_ &&& SIGNAL_MASK c = 0 ∧ w.disp.signals_.testBit c = false
          ∧ ∀ post, waitStepWith post c w
              = { post w.disp.signals_ { w with disp := { w.disp with signals_ := 0 } } with
                  thread := .returned ZX_OK (some w.disp.signals_) })
      ∧ (∀ st out, st ≠ ZX_OK → (waitStep c w).thread = .returned st out →
          out = none ∧ ∀ post, waitStepWith post c w = waitStep c w)
      ∧ (∀ post, (waitStepWith post c w).thread = (waitStep c w).thread)
      ∧ (∀ n out, (runWait c n w).thread = .returned ZX_OK out →
          ∃ s, out = some s ∧ s ≠ 0 ∧ s &&& SIGNAL_MASK c = 0)
      ∧ (∀ n st out, st ≠ ZX_OK → (runWait c n w).thread = .returned st out → out = none) := by
  refine ⟨?_, ?_, fun post => waitStepWith_thread post c w, ?_, ?_⟩
  · intro out h
    rcases waitStep_returns c w ZX_OK out hnot h with h1 | h1 | h1
    · obtain ⟨ht, h0, hc, _, ho⟩ := h1
      refine ⟨ho, h0, hc, (land_SIGNAL_MASK_eq_zero_iff _ _).mp hc, ?_⟩
      intro post
      unfold waitStepWith
      simp [ht, h0, hc]
    · cases h1.2.2.1
    · exact absurd rfl h1.2.1
  · intro st out hst h
    constructor
    · rcases waitStep_returns c w st out hnot h with h1 | h1 | h1
      · exact absurd h1.2.2.2.1 hst
      · exact h1.2.2.2
      · exact h1.2.2
    · intro post
      apply waitStepWith_of_not_ok
      intro o ho
      rw [h] at ho
      cases ho
      exact hst rfl
  · intro n out h
    obtain ⟨k, _, hk⟩ := runWait_returns c n w ZX_OK out hnot h
    rcases hk with h1 | h1 | h1
    · exact ⟨_, h1.2.2.2.2, h1.2.1, h1.2.2.1⟩
    · cases h1.2.2.1
    · exact absurd rfl h1.2.1
  · intro n st out hst h
    obtain ⟨k, _, hk⟩ := runWait_returns c n w st out hnot h
    rcases hk with h1 | h1 | h1
    · exact absurd h1.2.2.2.1 hst
    · exact h1.2.2.2
    · exact h1.2.2

theorem Wait_writes_out_signals_witness :
    (∀ out, (waitStep 63 { sampleWorld with thread := .woken ZX_ERR_INTERNAL }).thread
        ≠ .returned ZX_OK out)
      ∧ ∀ post, waitStepWith post 63 { sampleWorld with thread := .woken ZX_ERR_INTERNAL }
        = waitStep 63 { sampleWorld with thread := .woken ZX_ERR_INTERNAL } :=
  have h := Wait_writes_out_signals 63 { sampleWorld with thread := .woken ZX_ERR_INTERNAL }
    (fun _ _ hso => Thread.noConfusion hso)
  ⟨fun _ ho => Thread.noConfusion ho (fun hs _ => zx_status_t.noConfusion hs),
    (h.2.1 ZX_ERR_INTERNAL none (by decide) rfl).2⟩

/-! ### A second Wait blocks -/

theorem runWait_comm (c a b : Nat) (w : World) :
    runWait c a (runWait c b w) = runWait c b (runWait c a w) := by
  rw [← runWait_add, ← runWait_add, Nat.add_comm]

/-- A run that ends parked has not returned at any earlier point. -/
theorem not_returned_of_parked (c k : Nat) (w : World) (hk : (runWait c k w).thread = .parked)
    (n : Nat) (st : zx_status_t) (o : Option Nat) :
    (runWait c n w).thread ≠ .returned st o := by
  intro hn
  have h1 : runWait c k (runWait c n w) = runWait c n w :=
    runWait_of_settled c k _ (by rw [hn]; rfl)
  have h2 : runWait c n (runWait c k w) = runWait c k w :=
    runWait_of_settled c n _ (by rw [hk]; rfl)
  have h3 : runWait c n w = runWait c k w := by
    rw [← h1, runWait_comm, h2]
  rw [h3, hk] at hn
  cases hn

theorem second_Wait_run (c : Nat) (w : World) (dev : Nat) (s : Nat)
    (hth : w.thread = .returned ZX_OK (some s)) (h0 : w.disp.signals_ = 0)
    (hdev : w.disp.device_ = some dev) :
    (Wait c w).thread = .parked
      ∧ (Wait c w).disp.signals_ = 0
      ∧ (Wait c w).disp.event_.signaled = false
      ∧ (Wait c w).disp.interrupts_ = w.disp.interrupts_.map (fun i => { i with timestamp := 0 })
      ∧ (Wait c w).calls = w.calls ++
          (if w.disp.maskable_ then
            List.replicate (if w.disp.event_.signaled then 2 else 1)
              (PcieCall.UnmaskIrq dev w.disp.irq_id_)
           else [])
      ∧ (w.disp.maskable_ = true → (Wait c w).masked = false)
      ∧ (w.disp.event_.signaled = false → (runWait c 3 (callWait w)).thread = .parked)
      ∧ (w.disp.event_.signaled = true →
          (runWait c 3 (callWait w)).thread = .woken ZX_OK
            ∧ (runWait c 4 (callWait w)).thread = .loopHead
            ∧ (runWait c 4 (callWait w)).disp.signals_ = 0
            ∧ (runWait c 7 (callWait w)).thread = .parked) := by
  obtain ⟨⟨⟨sig, ⟨sg⟩, ints⟩, irq, mk, dv⟩, th, calls, msk⟩ := w
  simp only at hth h0 hdev
  subst hth h0 hdev
  cases mk <;> cases sg <;>
    simp [Wait, callWait, runWait, waitStep, PreWait, event_wait_deadline, List.replicate,
      Function.comp_def]

/-- Claim C17.  After a `Wait` has returned `ZX_OK` with slot bits, a second `Wait` with no
`Signal` or `Cancel` in between does not return: it finds the pending mask empty, runs
`PreWait`, which unmasks the vector if the dispatcher is maskable and resets every slot
timestamp to zero, and ends parked in the wait primitive.  That is also so when the event
still carries the ready mark of the earlier `Signal`: then `event_wait_deadline` returns once,
the thread comes back to the loop head, finds the mask empty once more, runs `PreWait` a
second time and parks. -/
theorem second_Wait_parks (c dev : Nat) (w : World)
    (hth : w.thread = .idle ∨ ∃ st o, w.thread = .returned st o)
    (h0 : w.disp.signals_ ≠ 0) (hc : w.disp.signals_ &&& SIGNAL_MASK c = 0)
    (hdev : w.disp.device_ = some dev) :
    (Wait c w).thread = .returned ZX_OK (some w.disp.signals_)
      ∧ (Wait c (Wait c w)).thread = .parked
      ∧ (∀ n st o, (runWait c n (callWait (Wait c w))).thread ≠ .returned st o)
      ∧ (Wait c (Wait c w)).disp.signals_ = 0
      ∧ (Wait c (Wait c w)).disp.interrupts_
          = w.disp.interrupts_.map (fun i => { i with timestamp := 0 })
      ∧ (Wait c (Wait c w)).calls = w.calls ++
          (if w.disp.maskable_ then
            List.replicate (if w.disp.event_.signaled then 2 else 1)
              (PcieCall.UnmaskIrq dev w.disp.irq_id_)
           else [])
      ∧ (w.disp.maskable_ = true → (Wait c (Wait c w)).masked = false)
      ∧ (w.disp.event_.signaled = false →
          (runWait c 3 (callWait (Wait c w))).thread = .parked)
      ∧ (w.disp.event_.signaled = true →
          (runWait c 3 (callWait (Wait c w))).thread = .woken ZX_OK
            ∧ (runWait c 4 (callWait (Wait c w))).thread = .loopHead
            ∧ (runWait c 4 (callWait (Wait c w))).disp.signals_ = 0
            ∧ (runWait c 7 (callWait (Wait c w))).thread = .parked) := by
  have h1 : Wait c w =
      { w with disp := { w.disp with signals_ := 0 },
               thread := .returned ZX_OK (some w.disp.signals_) } := by
    unfold Wait
    rw [callWait_of_outside w hth]
    exact runWait_loopHead_ok c 7 { w with thread := .loopHead } rfl h0 hc
  have h2 := second_Wait_run c (Wait c w) dev w.disp.signals_ (by rw [h1]) (by rw [h1])
    (by rw [h1]; exact hdev)
  have e1 : (Wait c w).disp.interrupts_ = w.disp.interrupts_ := by rw [h1]
  have e2 : (Wait c w).calls = w.calls := by rw [h1]
  have e3 : (Wait c w).disp.maskable_ = w.disp.maskable_ := by rw [h1]
  have e4 : (Wait c w).disp.event_ = w.disp.event_ := by rw [h1]
  have e5 : (Wait c w).disp.irq_id_ = w.disp.irq_id_ := by rw [h1]
  rw [e1, e2, e3, e4, e5] at h2
  obtain ⟨p1, p2, _, p4, p5, p6, p7, p8⟩ := h2
  exact ⟨by rw [h1], p1, not_returned_of_parked c 8 _ p1, p2, p4, p5, p6, p7, p8⟩

theorem second_Wait_parks_witness :
    (Wait 63 (Wait 63 (Signal 1 false sampleWorld).2)).thread = .parked
      ∧ (Wait 63 (Wait 63 (Signal 1 false sampleWorld).2)).calls
          = [PcieCall.UnmaskIrq 1 7, PcieCall.UnmaskIrq 1 7] :=
  have h := second_Wait_parks 63 1 (Signal 1 false sampleWorld).2 (Or.inl rfl) (by decide)
    (by decide) rfl
  ⟨h.2.1, h.2.2.2.2.2.1⟩

/-! ### Reachable states -/

theorem created_spec (K : Kernel) (dev irq_id : Nat) (maskable masked0 : Bool) (w0 : World)
    (h : created K dev irq_id maskable masked0 = some w0) :
    w0.disp.device_ = some dev ∧ w0.disp.maskable_ = maskable ∧ w0.disp.irq_id_ = irq_id
      ∧ w0.disp.signals_ = 0 ∧ w0.disp.event_.signaled = false ∧ w0.thread = .idle
      ∧ w0.masked = (!maskable && masked0) := by
  unfold created Create at h
  simp only at h
  split at h
  · cases h
  · rename_i d hd
    simp only [Option.some.injEq] at h
    subst h
    split at hd
    · cases hd
    · split at hd
      · cases hd
      · split at hd
        · cases hd
        · split at hd
          · cases hd
          · simp only [Option.some.injEq] at hd
            subst hd
            exact ⟨rfl, rfl, rfl, rfl, rfl, rfl, rfl⟩

theorem IrqThunk_eq_list (now ctx : Nat) (w : World) (i : Interrupt)
    (hctx : w.disp.interrupts_[ctx]? = some i) :
    ∃ l : List Interrupt, IrqThunk now ctx w
      = some (if 0 < (Signal (SIGNAL_MASK i.slot) false
                  { w with disp := { w.disp with interrupts_ := l } }).1
            then .PCIE_IRQRET_MASK_AND_RESCHED else .PCIE_IRQRET_MASK,
          (Signal (SIGNAL_MASK i.slot) false
            { w with disp := { w.disp with interrupts_ := l } }).2) := by
  have hslot : (if i.timestamp = 0 then { i with timestamp := now } else i).slot = i.slot := by
    split <;> rfl
  unfold IrqThunk
  simp only [hctx]
  generalize (if i.timestamp = 0 then { i with timestamp := now } else i) = i1 at hslot ⊢
  rw [hslot]
  refine ⟨w.disp.interrupts_.set ctx i1, ?_⟩
  split <;> rfl

theorem IrqThunk_some (now ctx : Nat) (w : World) (r : pcie_irq_handler_retval_t × World)
    (h : IrqThunk now ctx w = some r) :
    ∃ (i : Interrupt) (l : List Interrupt),
      r.2 = (Signal (SIGNAL_MASK i.slot) false
              { w with disp := { w.disp with interrupts_ := l } }).2 := by
  cases hctx : w.disp.interrupts_[ctx]? with
  | none =>
    unfold IrqThunk at h
    simp [hctx] at h
  | some i =>
    obtain ⟨l, hl⟩ := IrqThunk_eq_list now ctx w i hctx
    rw [hl, Option.some.injEq] at h
    exact ⟨i, l, by rw [← h]⟩

theorem fire_some (now ctx : Nat) (w w1 : World) (h : fire now ctx w = some w1) :
    (w.disp.maskable_ && w.masked) = false
      ∧ ∃ (i : Interrupt) (l : List Interrupt),
          w1 = { (Signal (SIGNAL_MASK i.slot) false
                    { w with disp := { w.disp with interrupts_ := l } }).2 with
                 masked := w.disp.maskable_ ||
                   (Signal (SIGNAL_MASK i.slot) false
                    { w with disp := { w.disp with interrupts_ := l } }).2.masked } := by
  unfold fire at h
  split at h
  · cases h
  · rename_i hg
    refine ⟨by simpa using hg, ?_⟩
    cases hI : IrqThunk now ctx w with
    | none => simp [hI] at h
    | some r =>
      simp only [hI, Option.some.injEq] at h
      obtain ⟨i, l, hr⟩ := IrqThunk_some now ctx w r hI
      exact ⟨i, l, by rw [← h, hr]⟩

/-- No action but a null dereference changes the device reference, and with the device
reference in place no action makes the thread fault. -/
theorem step_device (c : Nat) (a : Action) (w w1 : World) (dev : Nat)
    (hs : step c a w = some w1) (hd : w.disp.device_ = some dev) (hf : w.thread ≠ .fault) :
    w1.disp.device_ = some dev ∧ w1.thread ≠ .fault ∧ w1.disp.maskable_ = w.disp.maskable_
      ∧ w1.disp.irq_id_ = w.disp.irq_id_ := by
  cases a with
  | fire now ctx =>
    obtain ⟨_, i, l, h1⟩ := fire_some now ctx w w1 hs
    subst h1
    obtain ⟨⟨⟨sig, ⟨sg⟩, ints⟩, irq, mk, dv⟩, th, calls, msk⟩ := w
    simp only at hd hf
    subst hd
    cases th <;> simp_all [Signal, event_signal_etc]
  | _ =>
    obtain ⟨⟨⟨sig, ⟨sg⟩, ints⟩, irq, mk, dv⟩, th, calls, msk⟩ := w
    simp only at hd hf
    subst hd
    simp only [step, Option.some.injEq] at hs
    first
      | (subst hs
         cases th <;> cases mk <;> cases sg <;>
           simp_all [callWait, waitStep, Signal, Cancel, event_signal_etc, event_wait_fails, Bind,
             PreWait, event_wait_deadline, PostWait] <;>
           (repeat' split) <;> simp_all)
      | (cases th <;> cases mk <;>
           simp_all [on_zero_handles, Cancel, Signal, event_signal_etc] <;>
           subst hs <;> simp)

theorem exec_device (c : Nat) (as : List Action) (w w1 : World) (dev : Nat)
    (hs : exec c as w = some w1) (hd : w.disp.device_ = some dev) (hf : w.thread ≠ .fault) :
    w1.disp.device_ = some dev ∧ w1.thread ≠ .fault ∧ w1.disp.maskable_ = w.disp.maskable_
      ∧ w1.disp.irq_id_ = w.disp.irq_id_ := by
  induction as generalizing w with
  | nil =>
    simp only [exec, Option.some.injEq] at hs
    subst hs
    exact ⟨hd, hf, rfl, rfl⟩
  | cons a as ih =>
    rw [exec] at hs
    cases h1 : step c a w with
    | none => simp [h1] at hs
    | some w2 =>
      simp only [h1] at hs
      obtain ⟨p1, p2, p3, p4⟩ := step_device c a w w2 dev h1 hd hf
      obtain ⟨q1, q2, q3, q4⟩ := ih w2 hs p1 p2
      exact ⟨q1, q2, by rw [q3, p3], by rw [q4, p4]⟩

/-! ### The device reference -/

/-- Claim C16.  In every state reached from a successful `Create` by calls of `Wait` and steps
in it, `Signal`, `Cancel`, failures of the blocking primitive, hardware firings, `Bind` and
`on_zero_handles`, the device reference of the dispatcher is the device given to `Create`,
hence non-null.  So no dereference of `device_` acts on a null reference there: the thread
has not faulted and does not fault at its next step, and `PreWait`, `on_zero_handles`,
`RegisterInterruptHandler` and `UnregisterInterruptHandler` go through; the reference is still
there when the destructor makes its unregister call. -/
theorem device_reference_is_never_null (c : Nat) (K : Kernel) (dev irq_id : Nat)
    (maskable masked0 : Bool) (w0 w : World) (as : List Action)
    (hc : created K dev irq_id maskable masked0 = some w0) (hex : exec c as w0 = some w) :
    w.disp.device_ = some dev
      ∧ w.thread ≠ .fault
      ∧ (waitStep c w).thread ≠ .fault
      ∧ (∃ w1, PreWait w = some w1)
      ∧ (∃ w1, on_zero_handles c w = some w1)
      ∧ (∀ vector, ∃ r, RegisterInterruptHandler K vector w.disp = some r)
      ∧ (∀ vector, ∃ r, UnregisterInterruptHandler vector w.disp = some r)
      ∧ (∀ v, (destroyTrace K w).head? = some v → v.disp.device_ = some dev) := by
  obtain ⟨c1, _, _, _, _, c6, _⟩ := created_spec K dev irq_id maskable masked0 w0 hc
  obtain ⟨hd, hf, _, _⟩ := exec_device c as w0 w dev hex c1 (by rw [c6]; simp)
  refine ⟨hd, hf, (step_device c .wait w _ dev rfl hd hf).2.1, ?_, ?_, ?_, ?_, ?_⟩
  · unfold PreWait
    simp only [hd]
    split <;> exact ⟨_, rfl⟩
  · unfold on_zero_handles
    simp only [hd]
    split <;> exact ⟨_, rfl⟩
  · intro vector
    unfold RegisterInterruptHandler
    simp only [hd]
    exact ⟨_, rfl⟩
  · intro vector
    unfold UnregisterInterruptHandler
    simp only [hd]
    exact ⟨_, rfl⟩
  · intro v hv
    unfold destroyTrace at hv
    simp only [hd] at hv
    split at hv
    · simp only [List.head?_cons, Option.some.injEq] at hv
      subst hv
      exact hd
    · simp only [List.head?_cons, Option.some.injEq] at hv
      subst hv
      exact hd

theorem device_reference_is_never_null_witness :
    ({ sampleCreated with thread := .preWait } : World).disp.device_ = some 1
      ∧ ∃ w1, PreWait { sampleCreated with thread := .preWait } = some w1 :=
  have h := device_reference_is_never_null 63 (sampleKernel ZX_OK) 1 7 true false sampleCreated
    { sampleCreated with thread := .preWait } [.call, .wait] (by decide) (by decide)
  ⟨h.1, h.2.2.2.1⟩

/-! ### The destructor -/

theorem handlerRegistered_append_unregister (K : Kernel) (dev irq : Nat) (calls : List PcieCall)
    (hok : K.RegisterIrqHandler dev irq false = ZX_OK) :
    handlerRegistered K dev irq (calls ++ [PcieCall.RegisterIrqHandler dev irq false]) = false := by
  unfold handlerRegistered
  rw [List.foldl_append]
  simp [hok]

/-- With the `AddSlot` modelled from the spec, a `Create` that is rolled back leaves no
handler registered on the device: the registration is what failed. -/
theorem rolled_back_Create_leaves_no_handler (reg : zx_status_t) (dev irq_id : Nat)
    (maskable : Bool)
    (h : (Create (sampleKernel reg) true (some dev) irq_id maskable true true).status ≠ ZX_OK) :
    handlerRegistered (sampleKernel reg) dev irq_id
      (Effect.calls (Create (sampleKernel reg) true (some dev) irq_id maskable true true).effects)
      = false := by
  by_cases hlt : irq_id < 256
  · by_cases hr : reg = ZX_OK
    · subst hr
      simp [Create, sampleKernel, AddSlot, PciInterruptDispatcher.new, InterruptDispatcher.new,
        IRQ_SLOT, hlt] at h
    · simp [Create, hr, sampleKernel, AddSlot, PciInterruptDispatcher.new,
        InterruptDispatcher.new, IRQ_SLOT, destroy, Effect.calls, handlerRegistered, hlt]
  · simp [Create, sampleKernel, Effect.calls, handlerRegistered, hlt]

/-- Claim C11.  The destructor of a dispatcher whose device reference is non-null calls
`RegisterIrqHandler(irq_id, nullptr, nullptr)` on that device exactly once, asserts that the
result is `ZX_OK`, and only then releases the device reference: in every state it passes
through the call has been made, and where the device reference is null no handler is
registered for the dispatcher any more.  The same is true of every state reached from a
successful `Create`, where the device reference is not null at all.  When the device reference
is already null, the destructor makes no call and passes through no state. -/
theorem destructor_unregisters_before_release (c : Nat) (K : Kernel) (dev irq_id : Nat)
    (maskable masked0 : Bool) (w0 w : World) (as : List Action)
    (hc : created K dev irq_id maskable masked0 = some w0) (hex : exec c as w0 = some w) :
    destroy K w.disp
        = ({ w.disp with device_ := none }, [PcieCall.RegisterIrqHandler dev irq_id false],
            decide (K.RegisterIrqHandler dev irq_id false = ZX_OK))
      ∧ (∀ v ∈ w :: destroyTrace K w,
          v.disp.device_ = none → handlerRegistered K dev irq_id v.calls = false)
      ∧ (∀ v ∈ destroyTrace K w,
          v.calls = w.calls ++ [PcieCall.RegisterIrqHandler dev irq_id false])
      ∧ (K.RegisterIrqHandler dev irq_id false = ZX_OK →
          destroyTrace K w
            = [{ w with calls := w.calls ++ [PcieCall.RegisterIrqHandler dev irq_id false] },
               { w with calls := w.calls ++ [PcieCall.RegisterIrqHandler dev irq_id false],
                        disp := (destroy K w.disp).1 }])
      ∧ (K.RegisterIrqHandler dev irq_id false ≠ ZX_OK →
          destroyTrace K w
            = [{ w with calls := w.calls ++ [PcieCall.RegisterIrqHandler dev irq_id false] }])
      ∧ (∀ v : World, v.disp.device_ = none →
          destroy K v.disp = (v.disp, [], true) ∧ destroyTrace K v = []) := by
  obtain ⟨c1, _, c3, _, _, c6, _⟩ := created_spec K dev irq_id maskable masked0 w0 hc
  obtain ⟨hd, _, _, hirq⟩ := exec_device c as w0 w dev hex c1 (by rw [c6]; simp)
  rw [c3] at hirq
  have hdes : destroy K w.disp
      = ({ w.disp with device_ := none }, [PcieCall.RegisterIrqHandler dev irq_id false],
          decide (K.RegisterIrqHandler dev irq_id false = ZX_OK)) := by
    unfold destroy
    simp only [hd, hirq]
  refine ⟨hdes, ?_, ?_, ?_, ?_, ?_⟩
  · intro v hv hnull
    rcases List.mem_cons.mp hv with h | h
    · rw [h, hd] at hnull
      cases hnull
    · unfold destroyTrace at h
      simp only [hd, hirq] at h
      split at h
      · rename_i hok
        simp only [List.mem_cons, List.mem_singleton, List.not_mem_nil, or_false] at h
        rcases h with h | h
        · rw [h] at hnull
          simp only [hd] at hnull
          cases hnull
        · rw [h]
          exact handlerRegistered_append_unregister K dev irq_id w.calls hok
      · simp only [List.mem_singleton] at h
        rw [h] at hnull
        simp only [hd] at hnull
        cases hnull
  · intro v hv
    unfold destroyTrace at hv
    simp only [hd, hirq] at hv
    split at hv
    · simp only [List.mem_cons, List.mem_singleton, List.not_mem_nil, or_false] at hv
      rcases hv with h | h <;> rw [h]
    · simp only [List.mem_singleton] at hv
      rw [hv]
  · intro hok
    unfold destroyTrace
    simp only [hd, hirq, hok, if_true, hdes]
  · intro hno
    unfold destroyTrace
    simp only [hd, hirq, hno, if_false]
  · intro v hv
    unfold destroy destroyTrace
    simp only [hv]
    exact ⟨trivial, trivial⟩

theorem destructor_unregisters_before_release_witness :
    destroy (sampleKernel ZX_OK) sampleCreated.disp
        = ({ sampleCreated.disp with device_ := none }, [PcieCall.RegisterIrqHandler 1 7 false],
            true)
      ∧ handlerRegistered (sampleKernel ZX_OK) 1 7 sampleCreated.calls = true
      ∧ ∀ v ∈ sampleCreated :: destroyTrace (sampleKernel ZX_OK) sampleCreated,
          v.disp.device_ = none → handlerRegistered (sampleKernel ZX_OK) 1 7 v.calls = false :=
  have h := destructor_unregisters_before_release 63 (sampleKernel ZX_OK) 1 7 true false
    sampleCreated sampleCreated [] (by decide) (by decide)
  ⟨h.1, by decide, h.2.1⟩

/-! ### Masking as backpressure -/

theorem or_cancel_of_raisesNoSlot (s m k : Nat) (h : m ||| k = k) :
    (s ||| m) ||| k = s ||| k := by
  rw [Nat.or_assoc, h]

theorem or_cancel_idem (s k : Nat) : (s ||| k) ||| k = s ||| k := by
  rw [Nat.or_assoc, Nat.or_self]

/-- The invariant behind the masking policy is kept by every action that raises no slot bit
by software: a pending slot bit comes with a masked vector or with a thread that is on its
way to the next exchange, and with the ready mark while the thread stands before `PreWait`. -/
theorem step_mask_invariant (c : Nat) (a : Action) (w w1 : World)
    (ha : a.raisesNoSlot c = true) (hs : step c a w = some w1)
    (hm : w.disp.maskable_ = true)
    (hA : slotPending c w → w.masked = true ∨ rechecking w)
    (hB : slotPending c w → w.thread = .preWait → w.disp.event_.signaled = true) :
    w1.disp.maskable_ = true
      ∧ (slotPending c w1 → w1.masked = true ∨ rechecking w1)
      ∧ (slotPending c w1 → w1.thread = .preWait → w1.disp.event_.signaled = true) := by
  cases a with
  | fire now ctx =>
    obtain ⟨hg, i, l, h1⟩ := fire_some now ctx w w1 hs
    subst h1
    obtain ⟨⟨⟨sig, ⟨sg⟩, ints⟩, irq, mk, dv⟩, th, calls, msk⟩ := w
    simp only at hm
    subst hm
    cases th <;> simp_all [Signal, event_signal_etc, slotPending, rechecking]
  | signal m r =>
    simp only [Action.raisesNoSlot, decide_eq_true_eq] at ha
    simp only [step, Option.some.injEq] at hs
    subst hs
    have hk := or_cancel_of_raisesNoSlot w.disp.signals_ m (SIGNAL_MASK c) ha
    obtain ⟨⟨⟨sig, ⟨sg⟩, ints⟩, irq, mk, dv⟩, th, calls, msk⟩ := w
    simp only at hm hk
    subst hm
    cases th <;> simp_all [Signal, event_signal_etc, slotPending, rechecking]
  | cancel =>
    simp only [step, Option.some.injEq] at hs
    subst hs
    have hk := or_cancel_idem w.disp.signals_ (SIGNAL_MASK c)
    obtain ⟨⟨⟨sig, ⟨sg⟩, ints⟩, irq, mk, dv⟩, th, calls, msk⟩ := w
    simp only at hm hk
    subst hm
    cases th <;> simp_all [Cancel, Signal, event_signal_etc, slotPending, rechecking]
  | zeroHandles =>
    have hk := or_cancel_idem w.disp.signals_ (SIGNAL_MASK c)
    obtain ⟨⟨⟨sig, ⟨sg⟩, ints⟩, irq, mk, dv⟩, th, calls, msk⟩ := w
    simp only at hm hk
    subst hm
    cases dv with
    | none => simp [step, on_zero_handles] at hs
    | some dev =>
      simp only [step, on_zero_handles, if_true, Option.some.injEq] at hs
      subst hs
      cases th <;> simp_all [Cancel, Signal, event_signal_etc, slotPending, rechecking]
  | call =>
    simp only [step, Option.some.injEq] at hs
    subst hs
    obtain ⟨⟨⟨sig, ⟨sg⟩, ints⟩, irq, mk, dv⟩, th, calls, msk⟩ := w
    simp only at hm
    subst hm
    cases th <;> simp_all [callWait, slotPending, rechecking]
  | fail st =>
    simp only [step, Option.some.injEq] at hs
    subst hs
    obtain ⟨⟨⟨sig, ⟨sg⟩, ints⟩, irq, mk, dv⟩, th, calls, msk⟩ := w
    simp only at hm
    subst hm
    cases th <;> simp_all [event_wait_fails, slotPending, rechecking]
  | bind slot vector options =>
    simp only [step, Option.some.injEq, Bind] at hs
    subst hs
    exact ⟨hm, hA, hB⟩
  | wait =>
    simp only [step, Option.some.injEq] at hs
    subst hs
    obtain ⟨⟨⟨sig, ⟨sg⟩, ints⟩, irq, mk, dv⟩, th, calls, msk⟩ := w
    simp only at hm
    subst hm
    cases th with
    | loopHead =>
      by_cases h0 : sig = 0
      · simp_all [waitStep, slotPending, rechecking]
      · by_cases hcb : sig &&& SIGNAL_MASK c = 0 <;>
          simp_all [waitStep, slotPending, rechecking, PostWait]
    | preWait =>
      cases dv <;> simp_all [waitStep, PreWait, slotPending, rechecking]
    | eventWait =>
      cases sg <;> simp_all [waitStep, event_wait_deadline, slotPending, rechecking]
    | woken st =>
      by_cases hst : st = ZX_OK <;> simp_all [waitStep, slotPending, rechecking]
    | idle => simp_all [waitStep, slotPending, rechecking]
    | parked => simp_all [waitStep, slotPending, rechecking]
    | returned st o => simp_all [waitStep, slotPending, rechecking]
    | fault => simp_all [waitStep, slotPending, rechecking]

theorem exec_mask_invariant (c : Nat) (as : List Action) (w w1 : World)
    (ha : ∀ a ∈ as, a.raisesNoSlot c = true) (hs : exec c as w = some w1)
    (hm : w.disp.maskable_ = true)
    (hA : slotPending c w → w.masked = true ∨ rechecking w)
    (hB : slotPending c w → w.thread = .preWait → w.disp.event_.signaled = true) :
    w1.disp.maskable_ = true
      ∧ (slotPending c w1 → w1.masked = true ∨ rechecking w1)
      ∧ (slotPending c w1 → w1.thread = .preWait → w1.disp.event_.signaled = true) := by
  induction as generalizing w with
  | nil =>
    simp only [exec, Option.some.injEq] at hs
    subst hs
    exact ⟨hm, hA, hB⟩
  | cons a as ih =>
    rw [exec] at hs
    cases h1 : step c a w with
    | none => simp [h1] at hs
    | some w2 =>
      simp only [h1] at hs
      obtain ⟨p1, p2, p3⟩ := step_mask_invariant c a w w2
        (ha a (List.mem_cons_self a as)) h1 hm hA hB
      exact ih w2 (fun b hb => ha b (List.mem_cons_of_mem a hb)) hs p1 p2 p3

/-- The vector passes from masked to unmasked only in the step that runs `PreWait`. -/
theorem unmask_only_by_PreWait (c : Nat) (a : Action) (w w1 : World)
    (hs : step c a w = some w1) (h1 : w.masked = true) (h2 : w1.masked = false) :
    a = .wait ∧ w.thread = .preWait := by
  cases a with
  | fire now ctx =>
    obtain ⟨hg, i, l, h3⟩ := fire_some now ctx w w1 hs
    subst h3
    obtain ⟨⟨⟨sig, ⟨sg⟩, ints⟩, irq, mk, dv⟩, th, calls, msk⟩ := w
    cases th <;> simp_all [Signal, event_signal_etc]
  | zeroHandles =>
    obtain ⟨⟨⟨sig, ⟨sg⟩, ints⟩, irq, mk, dv⟩, th, calls, msk⟩ := w
    simp only at h1
    subst h1
    cases mk <;> cases dv <;> simp [step, on_zero_handles] at hs <;> subst hs <;>
      cases th <;> simp [Cancel, Signal, event_signal_etc] at h2
  | wait =>
    refine ⟨rfl, ?_⟩
    simp only [step, Option.some.injEq] at hs
    subst hs
    obtain ⟨⟨⟨sig, ⟨sg⟩, ints⟩, irq, mk, dv⟩, th, calls, msk⟩ := w
    simp only at h1
    subst h1
    cases th with
    | preWait => rfl
    | loopHead =>
      by_cases h0 : sig = 0
      · simp [waitStep, h0] at h2
      · by_cases hcb : sig &&& SIGNAL_MASK c = 0 <;> simp [waitStep, h0, hcb, PostWait] at h2
    | eventWait => cases sg <;> simp [waitStep, event_wait_deadline] at h2
    | woken st => by_cases hst : st = ZX_OK <;> simp [waitStep, hst] at h2
    | idle => simp [waitStep] at h2
    | parked => simp [waitStep] at h2
    | returned st o => simp [waitStep] at h2
    | fault => simp [waitStep] at h2
  | signal m r =>
    simp only [step, Option.some.injEq] at hs
    subst hs
    obtain ⟨⟨⟨sig, ⟨sg⟩, ints⟩, irq, mk, dv⟩, th, calls, msk⟩ := w
    cases th <;> simp_all [Signal, event_signal_etc]
  | cancel =>
    simp only [step, Option.some.injEq] at hs
    subst hs
    obtain ⟨⟨⟨sig, ⟨sg⟩, ints⟩, irq, mk, dv⟩, th, calls, msk⟩ := w
    cases th <;> simp_all [Cancel, Signal, event_signal_etc]
  | call =>
    simp only [step, Option.some.injEq] at hs
    subst hs
    obtain ⟨⟨⟨sig, ⟨sg⟩, ints⟩, irq, mk, dv⟩, th, calls, msk⟩ := w
    cases th <;> simp_all [callWait]
  | fail st =>
    simp only [step, Option.some.injEq] at hs
    subst hs
    obtain ⟨⟨⟨sig, ⟨sg⟩, ints⟩, irq, mk, dv⟩, th, calls, msk⟩ := w
    cases th <;> simp_all [event_wait_fails]
  | bind slot vector options =>
    simp only [step, Option.some.injEq, Bind] at hs
    subst hs
    rw [h1] at h2
    cases h2

/-- The thread comes to stand before `PreWait` only by the exchange that finds the pending
mask empty. -/
theorem PreWait_only_after_empty (c : Nat) (a : Action) (w w1 : World)
    (hs : step c a w = some w1) (h1 : w.thread ≠ .preWait) (h2 : w1.thread = .preWait) :
    a = .wait ∧ w.thread = .loopHead ∧ w.disp.signals_ = 0 := by
  cases a with
  | fire now ctx =>
    obtain ⟨hg, i, l, h3⟩ := fire_some now ctx w w1 hs
    subst h3
    obtain ⟨⟨⟨sig, ⟨sg⟩, ints⟩, irq, mk, dv⟩, th, calls, msk⟩ := w
    cases th <;> simp_all [Signal, event_signal_etc]
  | zeroHandles =>
    obtain ⟨⟨⟨sig, ⟨sg⟩, ints⟩, irq, mk, dv⟩, th, calls, msk⟩ := w
    cases mk <;> cases dv <;> simp [step, on_zero_handles] at hs <;> subst hs <;>
      cases th <;> simp_all [Cancel, Signal, event_signal_etc]
  | wait =>
    simp only [step, Option.some.injEq] at hs
    subst hs
    obtain ⟨⟨⟨sig, ⟨sg⟩, ints⟩, irq, mk, dv⟩, th, calls, msk⟩ := w
    cases th with
    | preWait => exact absurd rfl h1
    | loopHead =>
      by_cases h0 : sig = 0
      · exact ⟨rfl, rfl, h0⟩
      · by_cases hcb : sig &&& SIGNAL_MASK c = 0 <;> simp [waitStep, h0, hcb, PostWait] at h2
    | eventWait => cases sg <;> simp [waitStep, event_wait_deadline] at h2
    | woken st => by_cases hst : st = ZX_OK <;> simp [waitStep, hst] at h2
    | idle => simp [waitStep] at h2
    | parked => simp [waitStep] at h2
    | returned st o => simp [waitStep] at h2
    | fault => simp [waitStep] at h2
  | signal m r =>
    simp only [step, Option.some.injEq] at hs
    subst hs
    obtain ⟨⟨⟨sig, ⟨sg⟩, ints⟩, irq, mk, dv⟩, th, calls, msk⟩ := w
    cases th <;> simp_all [Signal, event_signal_etc]
  | cancel =>
    simp only [step, Option.some.injEq] at hs
    subst hs
    obtain ⟨⟨⟨sig, ⟨sg⟩, ints⟩, irq, mk, dv⟩, th, calls, msk⟩ := w
    cases th <;> simp_all [Cancel, Signal, event_signal_etc]
  | call =>
    simp only [step, Option.some.injEq] at hs
    subst hs
    obtain ⟨⟨⟨sig, ⟨sg⟩, ints⟩, irq, mk, dv⟩, th, calls, msk⟩ := w
    cases th <;> simp_all [callWait]
  | fail st =>
    simp only [step, Option.some.injEq] at hs
    subst hs
    obtain ⟨⟨⟨sig, ⟨sg⟩, ints⟩, irq, mk, dv⟩, th, calls, msk⟩ := w
    cases th <;> simp_all [event_wait_fails]
  | bind slot vector options =>
    simp only [step, Option.some.injEq, Bind] at hs
    subst hs
    exact absurd h2 h1

/-- A thread that is on its way to the next exchange reaches it within two steps, without
parking. -/
theorem rechecking_reaches_exchange (c : Nat) (w : World) (h : rechecking w) :
    ∃ k, k ≤ 2 ∧ (runWait c k w).thread = .loopHead := by
  obtain ⟨⟨⟨sig, ⟨sg⟩, ints⟩, irq, mk, dv⟩, th, calls, msk⟩ := w
  rcases h with ⟨h1, h2⟩ | h1 | h1
  · simp only at h1 h2
    subst h1 h2
    exact ⟨2, Nat.le_refl 2, by simp [runWait, waitStep, event_wait_deadline]⟩
  · simp only at h1
    subst h1
    exact ⟨1, by decide, by simp [runWait, waitStep]⟩
  · simp only at h1
    subst h1
    exact ⟨0, by decide, rfl⟩

/-- Claim C13, as the code has it.  For a maskable dispatcher, in every state reached from a
successful `Create` by hardware firings, `Wait` calls and steps, `Cancel`, `Signal` calls that
raise no slot bit, failures of the blocking primitive, `Bind` and `on_zero_handles`: whenever
a slot bit is pending, the vector is masked, or else the consumer thread has passed `PreWait`
and is on its way to the next exchange without blocking (at `event_wait_deadline` with the
ready mark set, just woken, or at the loop head).  A firing is possible only while the vector
is unmasked and leaves it masked; the vector passes from masked to unmasked only in the step
that runs `PreWait`, and the thread comes to stand before `PreWait` only by the exchange that
found the pending mask empty. -/
theorem masked_while_pending_or_rechecking (c : Nat) (K : Kernel) (dev irq_id : Nat)
    (masked0 : Bool) (w0 w : World) (as : List Action)
    (hc : created K dev irq_id true masked0 = some w0)
    (ha : ∀ a ∈ as, a.raisesNoSlot c = true) (hex : exec c as w0 = some w) :
    w.disp.maskable_ = true
      ∧ (slotPending c w → w.masked = true ∨ rechecking w)
      ∧ (rechecking w → ∃ k, k ≤ 2 ∧ (runWait c k w).thread = .loopHead)
      ∧ (∀ now ctx, w.masked = true → fire now ctx w = none)
      ∧ (∀ now ctx w1, fire now ctx w = some w1 → w1.masked = true)
      ∧ (∀ a w1, step c a w = some w1 → w.masked = true → w1.masked = false →
          a = .wait ∧ w.thread = .preWait)
      ∧ (∀ a w1, step c a w = some w1 → w.thread ≠ .preWait → w1.thread = .preWait →
          a = .wait ∧ w.thread = .loopHead ∧ w.disp.signals_ = 0) := by
  obtain ⟨_, c2, _, c4, _, c6, _⟩ := created_spec K dev irq_id true masked0 w0 hc
  have hnp : ¬ slotPending c w0 := by
    unfold slotPending
    rw [c4, Nat.zero_or]
    exact fun h => h rfl
  obtain ⟨hm, hA, _⟩ := exec_mask_invariant c as w0 w ha hex c2
    (fun h => absurd h hnp) (fun h => absurd h hnp)
  refine ⟨hm, hA, rechecking_reaches_exchange c w, ?_, ?_,
    fun a w1 => unmask_only_by_PreWait c a w w1,
    fun a w1 => PreWait_only_after_empty c a w w1⟩
  · intro now ctx hmask
    unfold fire
    simp [hm, hmask]
  · intro now ctx w1 hf
    obtain ⟨_, i, l, h1⟩ := fire_some now ctx w w1 hf
    rw [h1, hm]
    rfl

theorem masked_while_pending_or_rechecking_witness :
    exec 63 [.fire 5 0] sampleCreated = some sampleFired
      ∧ slotPending 63 sampleFired
      ∧ (slotPending 63 sampleFired → sampleFired.masked = true ∨ rechecking sampleFired) :=
  ⟨by decide, by unfold slotPending; decide,
    (masked_while_pending_or_rechecking 63 (sampleKernel ZX_OK) 1 7 false sampleCreated
      sampleFired [.fire 5 0] (by decide) (by decide) (by decide)).2.1⟩

/-- Claim C13 as stated fails.  A maskable dispatcher is created on vector 7 of device 1;
the consumer calls `Wait` and its exchange finds the pending mask empty; the hardware fires,
which sets the bit of slot 0 and masks the vector; the consumer then runs `PreWait`, which
unmasks the vector: now the slot bit is pending while the vector is unmasked, and the
hardware can fire a second time before the first event is consumed. -/
theorem unmasked_while_pending :
    ((created (sampleKernel ZX_OK) 1 7 true false).bind
        (exec 63 [.call, .wait, .fire 5 0, .wait])).map
          (fun w => (w.disp.maskable_, w.disp.signals_, w.masked, w.thread))
        = some (true, SIGNAL_MASK 0, false, .eventWait)
      ∧ ((created (sampleKernel ZX_OK) 1 7 true false).bind
          (exec 63 [.call, .wait, .fire 5 0, .wait, .fire 9 0])).isSome = true := by
  decide

/-! ### The handle scan at process startup -/

theorem IsLastOfType_zero (P : HandleTypes) (ty : Nat) (infos handles : List Nat) (prev : Nat) :
    IsLastOfType P ty infos handles 0 prev prev :=
  Or.inr ⟨fun j hj => absurd hj (Nat.not_lt_zero j), rfl⟩

theorem IsLastOfType_hit (P : HandleTypes) (ty : Nat) (infos handles : List Nat) (n prev h : Nat)
    (ht : typeAt P infos n = some ty) (hh : handles[n]? = some h) :
    IsLastOfType P ty infos handles (n + 1) prev h :=
  Or.inl ⟨n, Nat.lt_succ_self n, ht, hh, fun k h1 h2 => absurd h1 (by omega)⟩

theorem IsLastOfType_miss (P : HandleTypes) (ty : Nat) (infos handles : List Nat)
    (n prev g : Nat) (ht : typeAt P infos n ≠ some ty)
    (hl : IsLastOfType P ty infos handles n prev g) :
    IsLastOfType P ty infos handles (n + 1) prev g := by
  rcases hl with ⟨j, hj, h1, h2, h3⟩ | ⟨h1, h2⟩
  · refine Or.inl ⟨j, by omega, h1, h2, ?_⟩
    intro k hk1 hk2
    rcases Nat.lt_or_ge k n with hk | hk
    · exact h3 k hk1 hk
    · have : k = n := by omega
      rw [this]
      exact ht
  · refine Or.inr ⟨?_, h2⟩
    intro j hj
    rcases Nat.lt_or_ge j n with hk | hk
    · exact h1 j hk
    · have : j = n := by omega
      rw [this]
      exact ht

/-- One turn of the loop, on an index inside both arrays. -/
theorem scanBody_spec (P : HandleTypes) (hP : P.distinct) (i : Nat) (s : StartState)
    (info h : Nat) (hi : s.handle_info[i]? = some info) (hh : s.handles[i]? = some h) :
    ∃ s1, scanBody P i s = some s1
      ∧ (P.taken (P.MX_HND_INFO_TYPE info) →
          s1.handles = s.handles.set i P.MX_HANDLE_INVALID
            ∧ s1.handle_info = s.handle_info.set i 0)
      ∧ (¬ P.taken (P.MX_HND_INFO_TYPE info) →
          s1.handles = s.handles ∧ s1.handle_info = s.handle_info)
      ∧ s1.__magenta_process_self
          = (if P.MX_HND_INFO_TYPE info = P.MX_HND_TYPE_PROC_SELF then h
              else s.__magenta_process_self)
      ∧ s1.__magenta_job_default
          = (if P.MX_HND_INFO_TYPE info = P.MX_HND_TYPE_JOB then h else s.__magenta_job_default)
      ∧ s1.__magenta_vmar_root_self
          = (if P.MX_HND_INFO_TYPE info = P.MX_HND_TYPE_VMAR_ROOT then h
              else s.__magenta_vmar_root_self)
      ∧ s1.main_thread_handle
          = (if P.MX_HND_INFO_TYPE info = P.MX_HND_TYPE_THREAD_SELF then h
              else s.main_thread_handle) := by
  obtain ⟨d1, d2, d3, d4, d5, d6⟩ := hP
  unfold scanBody
  simp only [hi, hh]
  by_cases h1 : P.MX_HND_INFO_TYPE info = P.MX_HND_TYPE_PROC_SELF
  · simp [h1, HandleTypes.taken, d1, d2, d3]
  · by_cases h2 : P.MX_HND_INFO_TYPE info = P.MX_HND_TYPE_JOB
    · simp [h2, HandleTypes.taken, d1.symm, d4, d5]
    · by_cases h3 : P.MX_HND_INFO_TYPE info = P.MX_HND_TYPE_VMAR_ROOT
      · simp [h3, HandleTypes.taken, d2.symm, d4.symm, d6]
      · by_cases h4 : P.MX_HND_INFO_TYPE info = P.MX_HND_TYPE_THREAD_SELF
        · simp [h4, HandleTypes.taken, d3.symm, d5.symm, d6.symm]
        · simp [h1, h2, h3, h4, HandleTypes.taken]

/-- What one turn of the loop does to the arrays. -/
theorem scanBody_arrays (P : HandleTypes) (hP : P.distinct) (i : Nat) (s : StartState)
    (info h : Nat) (hi : s.handle_info[i]? = some info) (hh : s.handles[i]? = some h) :
    ∃ s1, scanBody P i s = some s1
      ∧ s1.handles.length = s.handles.length
      ∧ s1.handle_info.length = s.handle_info.length
      ∧ (∀ j, j ≠ i → s1.handles[j]? = s.handles[j]? ∧ s1.handle_info[j]? = s.handle_info[j]?)
      ∧ (P.taken (P.MX_HND_INFO_TYPE info) →
          s1.handles[i]? = some P.MX_HANDLE_INVALID ∧ s1.handle_info[i]? = some 0)
      ∧ (¬ P.taken (P.MX_HND_INFO_TYPE info) →
          s1.handles[i]? = s.handles[i]? ∧ s1.handle_info[i]? = s.handle_info[i]?) := by
  obtain ⟨s1, hs, ht, hn, _⟩ := scanBody_spec P hP i s info h hi hh
  have hl1 : i < s.handles.length := by
    rcases Nat.lt_or_ge i s.handles.length with hlt | hge
    · exact hlt
    · rw [List.getElem?_eq_none hge] at hh
      cases hh
  have hl2 : i < s.handle_info.length := by
    rcases Nat.lt_or_ge i s.handle_info.length with hlt | hge
    · exact hlt
    · rw [List.getElem?_eq_none hge] at hi
      cases hi
  refine ⟨s1, hs, ?_, ?_, ?_, ?_, ?_⟩
  · by_cases htk : P.taken (P.MX_HND_INFO_TYPE info)
    · rw [(ht htk).1, List.length_set]
    · rw [(hn htk).1]
  · by_cases htk : P.taken (P.MX_HND_INFO_TYPE info)
    · rw [(ht htk).2, List.length_set]
    · rw [(hn htk).2]
  · intro j hj
    by_cases htk : P.taken (P.MX_HND_INFO_TYPE info)
    · rw [(ht htk).1, (ht htk).2, List.getElem?_set_ne (Ne.symm hj),
        List.getElem?_set_ne (Ne.symm hj)]
      exact ⟨rfl, rfl⟩
    · rw [(hn htk).1, (hn htk).2]
      exact ⟨rfl, rfl⟩
  · intro htk
    rw [(ht htk).1, (ht htk).2, List.getElem?_set_self hl1, List.getElem?_set_self hl2]
    exact ⟨rfl, rfl⟩
  · intro htk
    rw [(hn htk).1, (hn htk).2]
    exact ⟨rfl, rfl⟩

theorem IsLastOfType_step (P : HandleTypes) (ty : Nat) (infos handles : List Nat)
    (n prev g info h : Nat) (hi : infos[n]? = some info) (hh : handles[n]? = some h)
    (hl : IsLastOfType P ty infos handles n prev g) :
    IsLastOfType P ty infos handles (n + 1) prev
      (if P.MX_HND_INFO_TYPE info = ty then h else g) := by
  have hty : typeAt P infos n = some (P.MX_HND_INFO_TYPE info) := by
    unfold typeAt
    rw [hi]
    rfl
  by_cases he : P.MX_HND_INFO_TYPE info = ty
  · rw [if_pos he]
    exact IsLastOfType_hit P ty infos handles n prev h (by rw [hty, he]) hh
  · rw [if_neg he]
    apply IsLastOfType_miss P ty infos handles n prev g _ hl
    rw [hty]
    intro hc
    exact he (Option.some.inj hc)

/-- The loop invariant of the handle scan, after the indices below `n`. -/
theorem scanUpTo_spec (P : HandleTypes) (hP : P.distinct) (s0 : StartState) (n : Nat)
    (h1 : n ≤ s0.handles.length) (h2 : n ≤ s0.handle_info.length) :
    ∃ s, scanUpTo P n s0 = some s
      ∧ s.handles.length = s0.handles.length
      ∧ s.handle_info.length = s0.handle_info.length
      ∧ (∀ j, n ≤ j → s.handles[j]? = s0.handles[j]? ∧ s.handle_info[j]? = s0.handle_info[j]?)
      ∧ (∀ j info, j < n → s0.handle_info[j]? = some info →
          (P.taken (P.MX_HND_INFO_TYPE info) →
            s.handles[j]? = some P.MX_HANDLE_INVALID ∧ s.handle_info[j]? = some 0)
          ∧ (¬ P.taken (P.MX_HND_INFO_TYPE info) →
            s.handles[j]? = s0.handles[j]? ∧ s.handle_info[j]? = s0.handle_info[j]?))
      ∧ IsLastOfType P P.MX_HND_TYPE_PROC_SELF s0.handle_info s0.handles n
          s0.__magenta_process_self s.__magenta_process_self
      ∧ IsLastOfType P P.MX_HND_TYPE_JOB s0.handle_info s0.handles n
          s0.__magenta_job_default s.__magenta_job_default
      ∧ IsLastOfType P P.MX_HND_TYPE_VMAR_ROOT s0.handle_info s0.handles n
          s0.__magenta_vmar_root_self s.__magenta_vmar_root_self
      ∧ IsLastOfType P P.MX_HND_TYPE_THREAD_SELF s0.handle_info s0.handles n
          s0.main_thread_handle s.main_thread_handle := by
  induction n with
  | zero =>
    exact ⟨s0, rfl, rfl, rfl, fun j _ => ⟨rfl, rfl⟩,
      fun j info hj _ => absurd hj (Nat.not_lt_zero j),
      IsLastOfType_zero _ _ _ _ _, IsLastOfType_zero _ _ _ _ _, IsLastOfType_zero _ _ _ _ _,
      IsLastOfType_zero _ _ _ _ _⟩
  | succ n ih =>
    obtain ⟨s, hs, l1, l2, hrest, hdone, g1, g2, g3, g4⟩ := ih (by omega) (by omega)
    have hi0 : s0.handle_info[n]? = some s0.handle_info[n] := List.getElem?_eq_getElem (by omega)
    have hh0 : s0.handles[n]? = some s0.handles[n] := List.getElem?_eq_getElem (by omega)
    have hi : s.handle_info[n]? = some s0.handle_info[n] := by
      rw [(hrest n (Nat.le_refl n)).2, hi0]
    have hh : s.handles[n]? = some s0.handles[n] := by
      rw [(hrest n (Nat.le_refl n)).1, hh0]
    obtain ⟨s1, hb, a1, a2, a3, a4, a5⟩ :=
      scanBody_arrays P hP n s s0.handle_info[n] s0.handles[n] hi hh
    obtain ⟨s1', hb', _, _, b1, b2, b3, b4⟩ :=
      scanBody_spec P hP n s s0.handle_info[n] s0.handles[n] hi hh
    have hs1 : s1' = s1 := by
      rw [hb] at hb'
      exact (Option.some.inj hb').symm
    subst hs1
    refine ⟨s1', ?_, by rw [a1, l1], by rw [a2, l2], ?_, ?_, ?_, ?_, ?_, ?_⟩
    · rw [scanUpTo, hs]
      exact hb
    · intro j hj
      have hne : j ≠ n := by omega
      rw [(a3 j hne).1, (a3 j hne).2]
      exact hrest j (by omega)
    · intro j info hj hinfo
      rcases Nat.lt_or_ge j n with hlt | hge
      · have hne : j ≠ n := by omega
        rw [(a3 j hne).1, (a3 j hne).2]
        exact hdone j info hlt hinfo
      · have hjn : j = n := by omega
        subst hjn
        rw [hi0] at hinfo
        have hinfo' := Option.some.inj hinfo
        subst hinfo'
        refine ⟨a4, ?_⟩
        intro htk
        rw [(a5 htk).1, (a5 htk).2]
        exact hrest j (Nat.le_refl j)
    · rw [b1]
      exact IsLastOfType_step P _ _ _ n _ _ _ _ hi0 hh0 g1
    · rw [b2]
      exact IsLastOfType_step P _ _ _ n _ _ _ _ hi0 hh0 g2
    · rw [b3]
      exact IsLastOfType_step P _ _ _ n _ _ _ _ hi0 hh0 g3
    · rw [b4]
      exact IsLastOfType_step P _ _ _ n _ _ _ _ hi0 hh0 g4

/-- Claim C19.  Let the arrays `handles` and `handle_info` hold at least `nhandles` entries
and let the four handle types of the `switch` be different values.  Then the handle scan of
`__libc_start_main` runs through, and afterwards, for every index `i` below `nhandles`: if
the type of `handle_info[i]` was `PROC_SELF`, `JOB`, `VMAR_ROOT` or `THREAD_SELF`, then
`handles[i]` is `MX_HANDLE_INVALID` and `handle_info[i]` is 0, and otherwise both entries are
as before; the entries from `nhandles` on are as before; the process-self, default-job and
root-VMAR globals and the main thread handle each hold the last handle of their type among
the first `nhandles` entries, or their previous value (`MX_HANDLE_INVALID` for the main thread
handle) when there is none of that type. -/
theorem handleScan_takes_startup_handles (P : HandleTypes) (hP : P.distinct) (s0 : StartState)
    (nhandles : Nat) (h1 : nhandles ≤ s0.handles.length)
    (h2 : nhandles ≤ s0.handle_info.length) :
    ∃ s, handleScan P nhandles s0 = some s
      ∧ (∀ i info, i < nhandles → s0.handle_info[i]? = some info →
          (P.taken (P.MX_HND_INFO_TYPE info) →
            s.handles[i]? = some P.MX_HANDLE_INVALID ∧ s.handle_info[i]? = some 0)
          ∧ (¬ P.taken (P.MX_HND_INFO_TYPE info) →
            s.handles[i]? = s0.handles[i]? ∧ s.handle_info[i]? = s0.handle_info[i]?))
      ∧ (∀ i, nhandles ≤ i →
          s.handles[i]? = s0.handles[i]? ∧ s.handle_info[i]? = s0.handle_info[i]?)
      ∧ s.handles.length = s0.handles.length
      ∧ s.handle_info.length = s0.handle_info.length
      ∧ IsLastOfType P P.MX_HND_TYPE_PROC_SELF s0.handle_info s0.handles nhandles
          s0.__magenta_process_self s.__magenta_process_self
      ∧ IsLastOfType P P.MX_HND_TYPE_JOB s0.handle_info s0.handles nhandles
          s0.__magenta_job_default s.__magenta_job_default
      ∧ IsLastOfType P P.MX_HND_TYPE_VMAR_ROOT s0.handle_info s0.handles nhandles
          s0.__magenta_vmar_root_self s.__magenta_vmar_root_self
      ∧ IsLastOfType P P.MX_HND_TYPE_THREAD_SELF s0.handle_info s0.handles nhandles
          P.MX_HANDLE_INVALID s.main_thread_handle := by
  obtain ⟨s, hs, l1, l2, hrest, hdone, g1, g2, g3, g4⟩ :=
    scanUpTo_spec P hP { s0 with main_thread_handle := P.MX_HANDLE_INVALID } nhandles h1 h2
  exact ⟨s, hs, hdone, hrest, l1, l2, g1, g2, g3, g4⟩

theorem handleScan_takes_startup_handles_witness :
    ∃ s, handleScan sampleTypes 5 sampleStart = some s
      ∧ s.handles.length = 5
      ∧ IsLastOfType sampleTypes 2 sampleStart.handle_info sampleStart.handles 5 0
          s.main_thread_handle :=
  have ⟨s, h1, _, _, h4, _, _, _, _, h9⟩ :=
    handleScan_takes_startup_handles sampleTypes (by unfold HandleTypes.distinct; decide)
      sampleStart 5 (by decide) (by decide)
  ⟨s, h1, h4, h9⟩

theorem handleScan_sample :
    handleScan sampleTypes 5 sampleStart
      = some { handles := [0, 12, 0, 0, 0], handle_info := [0, 65584, 0, 0, 0],
               __magenta_process_self := 11, __magenta_job_default := 15,
               __magenta_vmar_root_self := 9, main_thread_handle := 14, closed := [7] } := by
  decide

end Zircon
